import Mathlib

/-!
Verification of the IGamble game server (`server.js`): a shallow embedding of
the balance ledger, blackjack and poker handlers, the giveaway queue and its
resolution tick, and the trade handshake, together with theorems about the
specification's claims.

Conventions of the embedding:
* JS numbers that hold money/bets are modelled as `Int` (all amounts in the
  program are integral); non-numeric payloads (`NaN` flows) are outside the
  model and noted where relevant.
* JS objects used as string-keyed maps (`users`, `online`, `bjStates`,
  `trades`) are association lists; JS object keys are unique, which appears
  as `Nodup` hypotheses where a theorem needs it.
* `Math.random()`-driven choices (deck shuffles, giveaway winner index) are
  parameters of the corresponding functions.
* A lookup of a missing user would throw a `TypeError` in JS
  (`users[x].balance`); in the embedding such updates leave the list
  unchanged, and theorems that depend on the affected entry carry an
  explicit membership hypothesis.
-/

/-! ## Cards -/

inductive Rank where
  | r2 | r3 | r4 | r5 | r6 | r7 | r8 | r9 | r10 | rJ | rQ | rK | rA
deriving DecidableEq

inductive Suit where
  | spades | hearts | diamonds | clubs
deriving DecidableEq

structure Card where
  r : Rank
  s : Suit
deriving DecidableEq

/-- The numeric weight table `{'2':2, ..., '10':10, 'J':11, 'Q':12, 'K':13, 'A':14}`
used by `rankHand` and `pairValues`. -/
def rankOrder : Rank → Int
  | .r2 => 2 | .r3 => 3 | .r4 => 4 | .r5 => 5 | .r6 => 6 | .r7 => 7
  | .r8 => 8 | .r9 => 9 | .r10 => 10 | .rJ => 11 | .rQ => 12 | .rK => 13 | .rA => 14

/-- The JS string naming each rank (`c.r` in the source). -/
def rankName : Rank → String
  | .r2 => "2" | .r3 => "3" | .r4 => "4" | .r5 => "5" | .r6 => "6" | .r7 => "7"
  | .r8 => "8" | .r9 => "9" | .r10 => "10" | .rJ => "J" | .rQ => "Q" | .rK => "K" | .rA => "A"

/-! ## Blackjack hand value (`valueHand`) -/

/-- Contribution of one card to the initial sum in `valueHand`:
`A` counts 11, `K`/`Q`/`J` count 10, the rest their number. -/
def cardBase : Rank → Int
  | .rA => 11 | .rK => 10 | .rQ => 10 | .rJ => 10
  | r => rankOrder r

def isAce (c : Card) : Bool := c.r = Rank.rA

/-- The `while(sum>21 && aces>0){ sum-=10; aces--; }` loop of `valueHand`. -/
def reduceAces : Int → Nat → Int
  | sum, 0 => sum
  | sum, Nat.succ a => if sum > 21 then reduceAces (sum - 10) a else sum

/-- `valueHand(h)` from the source: sum of `cardBase`, then aces degraded
from 11 to 1 while the total exceeds 21. -/
def valueHand (h : List Card) : Int :=
  reduceAces (h.foldl (fun acc c => acc + cardBase c.r) 0) (h.countP (fun c => isAce c))

/-! ## JS values and comparison (for `compareRank` score arrays)

The source stores a mix of numbers and rank-name strings in `score` arrays
(`getKeyByValue` and `pairValues` return object *keys*, which are strings).
`compareRank` then applies JS `>` / `<`, which compares two strings by
code-unit order and otherwise converts to number (`NaN` comparisons are
false). -/

inductive JSVal where
  | num (n : Int)
  | str (s : String)
deriving DecidableEq

/-- JS code-unit lexicographic string order (the rank-name strings are ASCII,
where code-unit order is codepoint order). -/
def charListLt : List Char → List Char → Bool
  | [], [] => false
  | [], _ :: _ => true
  | _ :: _, [] => false
  | a :: as, b :: bs => if a < b then true else if b < a then false else charListLt as bs

def jsStrLt (a b : String) : Bool := charListLt a.data b.data

def digitVal (c : Char) : Option Nat :=
  if '0' ≤ c ∧ c ≤ '9' then some (c.toNat - '0'.toNat) else none

def parseDigits : List Char → Option Nat
  | [] => none
  | cs => cs.foldl (fun acc c =>
      match acc, digitVal c with
      | some n, some d => some (n * 10 + d)
      | _, _ => none) (some 0)

/-- JS `ToNumber` restricted to the values occurring in score arrays:
strings of digits (`"2"`..`"10"`) parse, `"J"`/`"Q"`/`"K"`/`"A"` are `NaN`
(`none`). -/
def toNumber : JSVal → Option Int
  | .num n => some n
  | .str s => (parseDigits s.data).map (fun n => (n : Int))

/-- JS `a > b` on score entries: string/string compares lexicographically by
code units; otherwise both sides are converted to number, a `NaN` making the
comparison false. -/
def jsGtVal : JSVal → JSVal → Bool
  | .str a, .str b => jsStrLt b a
  | a, b =>
    match toNumber a, toNumber b with
    | some x, some y => y < x
    | _, _ => false

/-- JS `a < b` on score entries (same regime as `jsGtVal`). -/
def jsLtVal : JSVal → JSVal → Bool
  | .str a, .str b => jsStrLt a b
  | a, b =>
    match toNumber a, toNumber b with
    | some x, some y => x < y
    | _, _ => false

/-- `a.score[i] || 0`: a missing entry — and any falsy entry (`0`, `""`,
JS `null` from a failed `getKeyByValue`) — reads as `0`. -/
def scoreGet (l : List JSVal) (i : Nat) : JSVal :=
  match l.get? i with
  | none => .num 0
  | some (.num n) => if n = 0 then .num 0 else .num n
  | some (.str s) => if s = "" then .num 0 else .str s

/-- The index loop of `compareRank`, by remaining fuel
(`fuel = max(a.length, b.length) - i`). -/
def cmpFrom (a b : List JSVal) : Nat → Nat → Int
  | _, 0 => 0
  | i, Nat.succ fuel =>
    let ai := scoreGet a i
    let bi := scoreGet b i
    if jsGtVal ai bi then 1
    else if jsLtVal ai bi then -1
    else cmpFrom a b (i + 1) fuel

/-- Lexicographic JS comparison of two score arrays, exactly the loop of
`compareRank` (indices `0 ..< max length`, missing entries read as `0`). -/
def cmpSeq (a b : List JSVal) : Int :=
  cmpFrom a b 0 (max a.length b.length)

/-! ## Generic sorting (JS `Array.prototype.sort` with a comparator)

JS sort is stable and orders ascending by the comparator.  We model it as a
stable insertion sort: elements are inserted left to right, each placed after
every already-placed element it is not strictly below. `lt x y` stands for
`cmp(x, y) < 0`. -/

def insertBy {α : Type} (lt : α → α → Bool) (x : α) : List α → List α
  | [] => [x]
  | y :: ys => if lt x y then x :: y :: ys else y :: insertBy lt x ys

def sortBy {α : Type} (lt : α → α → Bool) (l : List α) : List α :=
  l.foldl (fun acc x => insertBy lt x acc) []

/-- `vals.sort((a,b)=>b-a)`: integers descending. -/
def sortIntDesc (l : List Int) : List Int :=
  sortBy (fun x y => y < x) l

/-! ## Poker hand ranking (`rankHand`, `getKeyByValue`, `pairValues`, `compareRank`) -/

/-- First-occurrence deduplication, accumulating the keys already seen. -/
def dedupFirstAux {α : Type} [DecidableEq α] (seen : List α) : List α → List α
  | [] => []
  | x :: xs => if x ∈ seen then dedupFirstAux seen xs else x :: dedupFirstAux (x :: seen) xs

/-- First-occurrence deduplication (insertion order of object keys). -/
def dedupFirst {α : Type} [DecidableEq α] (l : List α) : List α :=
  dedupFirstAux [] l

/-- Ranks whose JS key (`'2'..'10'`) is an array index: integer-like keys are
enumerated first, in ascending numeric order. -/
def isNumericKey (r : Rank) : Bool :=
  match r with
  | .rJ | .rQ | .rK | .rA => false
  | _ => true

/-- The ranks of `hand` in JS object-key enumeration order of the `counts`
object: integer-like keys (`'2'..'10'`) ascending first, then the face keys
in insertion (first-occurrence) order. -/
def keysInJSOrder (hand : List Card) : List Rank :=
  let occ := dedupFirst (hand.map (fun c => c.r))
  sortBy (fun a b => rankOrder a < rankOrder b) (occ.filter (fun r => isNumericKey r))
    ++ occ.filter (fun r => ¬ isNumericKey r)

/-- `counts[r]`: how many cards of `hand` have rank `r`. -/
def countOf (hand : List Card) (r : Rank) : Nat :=
  (hand.filter (fun c => c.r = r)).length

/-- `getKeyByValue(counts, val)`: the first key (in object enumeration order)
whose count is `val`; `null` when none. -/
def getKeyByValue (hand : List Card) (val : Nat) : Option Rank :=
  (keysInJSOrder hand).find? (fun r => countOf hand r = val)

/-- The score entry built from a `getKeyByValue` result: the *key string*
(a rank name).  A `null` result would read as `0` in `compareRank`
(`null||0` and `ToNumber(null)=0`), hence `num 0`. -/
def keyScore (hand : List Card) (val : Nat) : JSVal :=
  match getKeyByValue hand val with
  | some r => .str (rankName r)
  | none => .num 0

/-- `pairValues(counts)`: all keys with count 2, sorted descending by the
numeric weight map — still as key strings. -/
def pairValues (hand : List Card) : List Rank :=
  sortBy (fun a b => rankOrder b < rankOrder a)
    ((keysInJSOrder hand).filter (fun r => countOf hand r = 2))

structure HandRank where
  name : String
  score : List JSVal
  vals : List Int
deriving DecidableEq

/-- The hand's numeric values sorted descending (`vals` in `rankHand`). -/
def valsDesc (hand : List Card) : List Int :=
  sortIntDesc (hand.map (fun c => rankOrder c.r))

/-- `Object.values(counts).sort((a,b)=>b-a)`: the rank multiplicities,
descending. -/
def freqDesc (hand : List Card) : List Int :=
  sortIntDesc ((keysInJSOrder hand).map (fun r => (countOf hand r : Int)))

/-- `rankHand(hand)` from the source.  Note the score arrays: categories are
numbers, but the repeated-rank entries are the *name strings* of the ranks
(object keys), and the pair/trip/quad/full-house and two-pair scores carry
no kickers. -/
def rankHand (hand : List Card) : HandRank :=
  let vals := valsDesc hand
  let isFlush := (dedupFirst (hand.map (fun c => c.s))).length = 1
  let isStraight := vals.getD 0 0 - vals.getD 4 0 = 4 ∧ (dedupFirst vals).length = 5
  let freq := freqDesc hand
  if isStraight ∧ isFlush then
    { name := "Straight Flush", score := [.num 9, .num (vals.getD 0 0)], vals := vals }
  else if freq.getD 0 0 = 4 then
    { name := "Four of a Kind", score := [.num 8, keyScore hand 4], vals := vals }
  else if freq.getD 0 0 = 3 ∧ freq.getD 1 0 = 2 then
    { name := "Full House", score := [.num 7, keyScore hand 3], vals := vals }
  else if isFlush then
    { name := "Flush", score := .num 6 :: vals.map .num, vals := vals }
  else if isStraight then
    { name := "Straight", score := [.num 5, .num (vals.getD 0 0)], vals := vals }
  else if freq.getD 0 0 = 3 then
    { name := "Three of a Kind", score := [.num 4, keyScore hand 3], vals := vals }
  else if freq.getD 0 0 = 2 ∧ freq.getD 1 0 = 2 then
    { name := "Two Pair", score := .num 3 :: (pairValues hand).map (fun r => .str (rankName r)), vals := vals }
  else if freq.getD 0 0 = 2 then
    { name := "One Pair", score := [.num 2, keyScore hand 2], vals := vals }
  else
    { name := "High Card", score := .num 1 :: vals.map .num, vals := vals }

/-- `compareRank(a,b)`: lexicographic JS comparison of the score arrays. -/
def compareRank (a b : HandRank) : Int :=
  cmpSeq a.score b.score

/-! ## Association-list primitives (JS object maps) -/

/-- `obj[key]` on a string/number-keyed JS object. -/
def alookup {κ α : Type} [DecidableEq κ] : List (κ × α) → κ → Option α
  | [], _ => none
  | (k, v) :: rest, key => if k = key then some v else alookup rest key

/-- `obj[key] = v`: replace in place if the key exists, else append
(JS objects keep a key's position on reassignment). -/
def aset {κ α : Type} [DecidableEq κ] : List (κ × α) → κ → α → List (κ × α)
  | [], key, v => [(key, v)]
  | (k, w) :: rest, key, v =>
    if k = key then (k, v) :: rest else (k, w) :: aset rest key v

/-- `delete obj[key]`. -/
def adelete {κ α : Type} [DecidableEq κ] : List (κ × α) → κ → List (κ × α)
  | [], _ => []
  | (k, v) :: rest, key => if k = key then adelete rest key else (k, v) :: adelete rest key

/-- `users[name].balance` (`none` when the user is unknown — JS would throw
a `TypeError` on the paths that read it without a guard). -/
def lookupBal (users : List (String × Int)) (name : String) : Option Int :=
  (alookup users name)

/-- `users[name].balance` on paths where the source reads it unguarded
(`poker_start`'s participant filter): in JS a missing user throws; the
default `0` is never exercised under the theorems' membership hypotheses. -/
def lookupBalD (users : List (String × Int)) (name : String) : Int :=
  (lookupBal users name).getD 0

/-- `users[name].balance += amt` (no-op when the user is unknown, where JS
would throw; see the module comment). -/
def creditBal : List (String × Int) → String → Int → List (String × Int)
  | [], _, _ => []
  | (n, b) :: rest, name, amt =>
    if n = name then (n, b + amt) :: rest else (n, b) :: creditBal rest name amt

/-- `users[name].balance -= amt` (no-op when the user is unknown). -/
def debitBal : List (String × Int) → String → Int → List (String × Int)
  | [], _, _ => []
  | (n, b) :: rest, name, amt =>
    if n = name then (n, b - amt) :: rest else (n, b) :: debitBal rest name amt

/-! ## Game state -/

structure Giveaway where
  id : Int
  host : String
  amount : Int
  entrants : List String
  createdAt : Int
deriving DecidableEq

inductive TStatus where
  | pending | accepted | declined
deriving DecidableEq

/-- A trade session (`trades[id]`); `src`/`dst` stand for the source's
`from`/`to` fields (`from` is reserved in Lean). -/
structure Trade where
  src : String
  dst : String
  status : TStatus
deriving DecidableEq

/-- `bjStates[username]` (the source's `socketid` field only routes
messages and is omitted). -/
structure BJState where
  deck : List Card
  player : List Card
  dealer : List Card
  bet : Int
  done : Bool
deriving DecidableEq

/-- The server's mutable state: the `users` ledger (name ↦ balance), the
`online` registry (key order of the JS object), the giveaway queue, the
per-user blackjack states and the trade sessions. -/
structure GState where
  users : List (String × Int)
  online : List String
  giveaways : List Giveaway
  bjStates : List (String × BJState)
  trades : List (Nat × Trade)
deriving DecidableEq

/-! ## Handlers -/

inductive SendOut where
  | loginRequired | invalidAmount | recipientNotFound | notEnoughFunds | sent
deriving DecidableEq

/-- The `send_coins` handler.  `sender` is `sockets[socket.id]`; `sto` is
the payload's `to`; `amount` models `Number(amount)` for integral payloads
(`!amt || amt<=0` is `amount ≤ 0` there). -/
def sendCoins (st : GState) (sender : Option String) (sto : String) (amount : Int) :
    GState × SendOut :=
  match sender with
  | none => (st, .loginRequired)
  | some sfrom =>
    if amount ≤ 0 then (st, .invalidAmount)
    else
      match lookupBal st.users sto with
      | none => (st, .recipientNotFound)
      | some _ =>
        match lookupBal st.users sfrom with
        | none => (st, .notEnoughFunds)
        | some bf =>
          if bf < amount then (st, .notEnoughFunds)
          else ({ st with users := creditBal (debitBal st.users sfrom amount) sto amount }, .sent)

inductive GiveOut where
  | invalidAmount | notEnoughBalance | opened
deriving DecidableEq

/-- The chat `/giveaway <amt>` branch; an unauthenticated sender falls back
to `"guest"` (`sockets[socket.id] || "guest"`). -/
def giveawayCmd (st : GState) (sender : Option String) (amt : Int) (now : Int) :
    GState × GiveOut :=
  let gfrom := sender.getD "guest"
  if amt ≤ 0 then (st, .invalidAmount)
  else
    match lookupBal st.users gfrom with
    | none => (st, .notEnoughBalance)
    | some b =>
      if b < amt then (st, .notEnoughBalance)
      else
        let gid : Int :=
          match st.giveaways.getLast? with
          | some g => g.id + 1
          | none => 1
        ({ st with
            users := debitBal st.users gfrom amt,
            giveaways := st.giveaways ++
              [{ id := gid, host := gfrom, amount := amt, entrants := [], createdAt := now }] },
          .opened)

inductive EnterOut where
  | noActive | alreadyEntered | entered
deriving DecidableEq

/-- The chat `/enter` branch.  The source reads
`giveaways[giveaways.length-1]`: the most recently opened giveaway — the
queue *tail* — not the head the scheduler resolves. -/
def enterCmd (st : GState) (sender : Option String) : GState × EnterOut :=
  let efrom := sender.getD "guest"
  match st.giveaways.getLast? with
  | none => (st, .noActive)
  | some g =>
    if efrom ∈ g.entrants then (st, .alreadyEntered)
    else
      ({ st with giveaways :=
          st.giveaways.dropLast ++ [{ g with entrants := g.entrants ++ [efrom] }] },
        .entered)

/-- The `trade_accept` handler: no-op when the id is unknown or the status
is not `pending`. -/
def tradeAccept (st : GState) (id : Nat) : GState :=
  match alookup st.trades id with
  | none => st
  | some t =>
    if t.status ≠ .pending then st
    else { st with trades := aset st.trades id { t with status := .accepted } }

/-- The `trade_decline` handler: unlike `trade_accept`, the source checks
only that the id exists — there is no `status !== "pending"` guard. -/
def tradeDecline (st : GState) (id : Nat) : GState :=
  match alookup st.trades id with
  | none => st
  | some t => { st with trades := aset st.trades id { t with status := .declined } }

/-! ## Blackjack handlers -/

/-- `n` successive `d.pop()` calls: the popped cards in pop order, and the
remaining deck.  An exhausted deck stops (in JS the hand would receive
`undefined` and `valueHand` would throw; unreachable with a real 52-card
deck). -/
def popN : Nat → List Card → List Card × List Card
  | 0, d => ([], d)
  | Nat.succ n, d =>
    match d.getLast? with
    | none => ([], d)
    | some c =>
      let p := popN n d.dropLast
      (c :: p.1, p.2)

inductive BJStartOut where
  | loginRequired | notEnoughFunds | started
deriving DecidableEq

/-- The `bj_start` handler.  Note: there is no `bet ≤ 0` validation — the
only guard is `!users[user] || users[user].balance < bet`.  The deck `d`
models the fresh shuffle `deck()`. -/
def bjStart (st : GState) (sender : Option String) (bet : Int) (d : List Card) :
    GState × BJStartOut :=
  match sender with
  | none => (st, .loginRequired)
  | some user =>
    match lookupBal st.users user with
    | none => (st, .notEnoughFunds)
    | some b =>
      if b < bet then (st, .notEnoughFunds)
      else
        let p := popN 4 d
        ({ st with
            users := debitBal st.users user bet,
            bjStates := aset st.bjStates user
              { deck := p.2, player := p.1.take 2, dealer := p.1.drop 2,
                bet := bet, done := false } },
          .started)

/-- The `hit` branch of `bj_action`.  The source checks only that a state
exists (`if(!s) return`) — `s.done` is not consulted. -/
def bjHit (st : GState) (sender : Option String) : GState :=
  match sender with
  | none => st
  | some user =>
    match alookup st.bjStates user with
    | none => st
    | some s =>
      match s.deck.getLast? with
      | none => st
      | some c =>
        let player' := s.player ++ [c]
        let s' := { s with
          deck := s.deck.dropLast, player := player',
          done := if valueHand player' > 21 then true else s.done }
        { st with bjStates := aset st.bjStates user s' }

/-- The dealer's `while(valueHand(s.dealer) < 17) s.dealer.push(s.deck.pop())`
loop, by fuel; each pass consumes one deck card, so `deck.length + 1` fuel
never runs out before the loop's own exit conditions. -/
def dealerLoopAux : Nat → List Card → List Card → List Card × List Card
  | 0, deck, dealer => (deck, dealer)
  | Nat.succ fuel, deck, dealer =>
    if valueHand dealer < 17 then
      match deck.getLast? with
      | none => (deck, dealer)
      | some c => dealerLoopAux fuel deck.dropLast (dealer ++ [c])
    else (deck, dealer)

def dealerLoop (deck dealer : List Card) : List Card × List Card :=
  dealerLoopAux (deck.length + 1) deck dealer

/-- The `stand` branch of `bj_action`: dealer draws below 17, then the
settlement chain `pv>21` / `dv>21 || pv>dv` / `pv === dv` / loss, and the
state is deleted (`delete bjStates[user]`). -/
def bjStand (st : GState) (sender : Option String) : GState :=
  match sender with
  | none => st
  | some user =>
    match alookup st.bjStates user with
    | none => st
    | some s =>
      let dealer' := (dealerLoop s.deck s.dealer).2
      let pv := valueHand s.player
      let dv := valueHand dealer'
      let users' :=
        if pv > 21 then st.users
        else if dv > 21 ∨ pv > dv then creditBal st.users user (s.bet * 2)
        else if pv = dv then creditBal st.users user s.bet
        else st.users
      { st with users := users', bjStates := adelete st.bjStates user }

/-- The `bj_action` dispatcher (any other `action` string is ignored). -/
def bjAction (st : GState) (sender : Option String) (action : String) : GState :=
  if action = "hit" then bjHit st sender
  else if action = "stand" then bjStand st sender
  else st

/-! ## Poker round (`poker_start`) -/

inductive PokerOut where
  | loginRequired | notEnoughFunds | noPlayers | played (winner : String)
deriving DecidableEq

/-- Deal 5 pops to each participant in order, from the one shared deck. -/
def dealAll : List Card → List String → List (String × List Card) × List Card
  | d, [] => ([], d)
  | d, u :: us =>
    let p := popN 5 d
    let q := dealAll p.2 us
    ((u, p.1) :: q.1, q.2)

/-- The `poker_start` handler.  Like `bj_start` it has no `bet ≤ 0`
validation.  Participants are *all* online users whose balance is at least
`bet`; each is debited `bet`; hands are dealt from the single deck `d`
(modelling `deck()`); the results are sorted by
`(a,b) => compareRank(b.rank, a.rank)` (stable, rank-descending) and the
front entry's user receives the whole pot `bet * participants.length`. -/
def pokerStart (st : GState) (sender : Option String) (bet : Int) (d : List Card) :
    GState × PokerOut :=
  match sender with
  | none => (st, .loginRequired)
  | some user =>
    match lookupBal st.users user with
    | none => (st, .notEnoughFunds)
    | some b =>
      if b < bet then (st, .notEnoughFunds)
      else
        let participants := st.online.filter (fun u => bet ≤ lookupBalD st.users u)
        match participants with
        | [] => (st, .noPlayers)
        | w0 :: _ =>
          let users1 := participants.foldl (fun us u => debitBal us u bet) st.users
          let results := (dealAll d participants).1.map (fun p => (p.1, rankHand p.2))
          let sorted := sortBy (fun x y => compareRank y.2 x.2 < 0) results
          -- `results[0].user`; `sorted` is a rearrangement of the nonempty
          -- `results`, so the default is never taken
          let winner := (sorted.headD (w0, rankHand [])).1
          ({ st with users := creditBal users1 winner (bet * (participants.length : Int)) },
            .played winner)

/-! ## Giveaway resolution tick (`setInterval`, every 5s) -/

/-- One scheduler tick: only the queue head is inspected; it closes when
`now - createdAt > 45000` or it has at least 5 entrants; an empty entrant
list refunds the host, otherwise entrant `pick` (the value of
`Math.floor(Math.random()*entrants.length)`) receives the amount; the head
is then `shift`ed off.  The `getD` default is never taken for `pick <
entrants.length`. -/
def giveawayTick (st : GState) (now : Int) (pick : Nat) : GState :=
  match st.giveaways with
  | [] => st
  | g :: rest =>
    if 45000 < now - g.createdAt ∨ 5 ≤ g.entrants.length then
      let users' :=
        if g.entrants.length = 0 then creditBal st.users g.host g.amount
        else creditBal st.users (g.entrants.getD pick "") g.amount
      { st with users := users', giveaways := rest }
    else st

/-! ## The operations of the system, unified (for the balance invariant) -/

inductive Op where
  | sendCoinsOp (sender : Option String) (sto : String) (amount : Int)
  | giveawayOp (sender : Option String) (amt : Int) (now : Int)
  | enterOp (sender : Option String)
  | bjStartOp (sender : Option String) (bet : Int) (d : List Card)
  | bjActionOp (sender : Option String) (action : String)
  | pokerStartOp (sender : Option String) (bet : Int) (d : List Card)
  | tickOp (now : Int) (pick : Nat)

def applyOp (st : GState) : Op → GState
  | .sendCoinsOp s sto a => (sendCoins st s sto a).1
  | .giveawayOp s a n => (giveawayCmd st s a n).1
  | .enterOp s => (enterCmd st s).1
  | .bjStartOp s b d => (bjStart st s b d).1
  | .bjActionOp s act => bjAction st s act
  | .pokerStartOp s b d => (pokerStart st s b d).1
  | .tickOp n p => giveawayTick st n p

/-! ## Invariant predicates (for the balance claim) -/

/-- All ledger balances are non-negative. -/
def nonNegBalances (st : GState) : Prop :=
  ∀ p ∈ st.users, 0 ≤ p.2

/-- The reachable-state facts the balance invariant depends on: balances
non-negative, the `online` registry key-unique (it is a JS object), every
live blackjack stake non-negative and every queued giveaway amount
non-negative (giveaways are created only through the validated
`/giveaway` command). -/
def goodState (st : GState) : Prop :=
  nonNegBalances st ∧ st.online.Nodup ∧
    (∀ p ∈ st.bjStates, 0 ≤ p.2.bet) ∧ (∀ g ∈ st.giveaways, 0 ≤ g.amount)

/-- The bet-validity side condition the source fails to enforce: the
unvalidated `bet` payloads of `bj_start` and `poker_start` are
non-negative.  Every other operation validates its own amounts. -/
def opBetOK : Op → Prop
  | .bjStartOp _ bet _ => 0 ≤ bet
  | .pokerStartOp _ bet _ => 0 ≤ bet
  | _ => True

/-! ## The specification's comparator (modelled from the claim's words)

Modelled from the spec §4.2 / claim C5: categories compare first; the
tiebreak sequences are numeric — for pair/triple/quad categories the
repeated rank's value then the remaining kickers descending, for Two Pair
both pair values descending then the kicker, for flush/high-card all five
values descending, for straight and straight flush the top card only.
Kept separate from `rankHand`/`compareRank` so the two can be compared. -/

def allRanks : List Rank :=
  [.r2, .r3, .r4, .r5, .r6, .r7, .r8, .r9, .r10, .rJ, .rQ, .rK, .rA]

def specRepeatedVal (h : List Card) (k : Nat) : Int :=
  match allRanks.find? (fun r => countOf h r = k) with
  | some r => rankOrder r
  | none => 0

/-- The values of the cards outside the repeated rank, descending. -/
def specKickers (h : List Card) (k : Nat) : List Int :=
  match allRanks.find? (fun r => countOf h r = k) with
  | some r => sortIntDesc ((h.filter (fun c => c.r ≠ r)).map (fun c => rankOrder c.r))
  | none => []

def specIsFlush (h : List Card) : Bool :=
  match h with
  | [] => true
  | c :: _ => h.all (fun x => x.s = c.s)

def specIsStraight (h : List Card) : Bool :=
  (valsDesc h).getD 0 0 - (valsDesc h).getD 4 0 = 4 ∧ (dedupFirst (valsDesc h)).length = 5

def hasCount (h : List Card) (k : Nat) : Bool :=
  allRanks.any (fun r => countOf h r = k)

def specCategory (h : List Card) : Int :=
  if specIsStraight h ∧ specIsFlush h then 9
  else if hasCount h 4 then 8
  else if hasCount h 3 ∧ hasCount h 2 then 7
  else if specIsFlush h then 6
  else if specIsStraight h then 5
  else if hasCount h 3 then 4
  else if 2 ≤ ((allRanks.filter (fun r => countOf h r = 2)).length) then 3
  else if hasCount h 2 then 2
  else 1

def specTiebreak (h : List Card) : List Int :=
  let c := specCategory h
  if c = 9 ∨ c = 5 then [(valsDesc h).headD 0]
  else if c = 8 then specRepeatedVal h 4 :: specKickers h 4
  else if c = 7 ∨ c = 4 then specRepeatedVal h 3 :: specKickers h 3
  else if c = 3 then
    sortIntDesc ((allRanks.filter (fun r => countOf h r = 2)).map rankOrder)
      ++ sortIntDesc ((h.filter (fun x => countOf h x.r ≠ 2)).map (fun x => rankOrder x.r))
  else if c = 2 then specRepeatedVal h 2 :: specKickers h 2
  else valsDesc h

def lexIntCompare : List Int → List Int → Int
  | x :: xs, y :: ys => if y < x then 1 else if x < y then -1 else lexIntCompare xs ys
  | _, _ => 0

/-- The whole claimed comparator: category first, then the spec's numeric
tiebreak sequence, lexicographically. -/
def specCompare (a b : List Card) : Int :=
  lexIntCompare (specCategory a :: specTiebreak a) (specCategory b :: specTiebreak b)

/-! ## The score sequences `rankHand` actually produces (amended shape) -/

/-- Descending (weakly) sorted run of integers. -/
def descSorted (l : List Int) : Prop :=
  List.Chain' (fun a b => b ≤ a) l

/-- What a score array `sc` holds for hand `h`, category by category
(category = the leading number): straights and straight flushes carry the
top value only; flushes and high cards all five values descending; the
repeated-rank categories (pair, trips, quads, full house) carry the *name
string* of a repeated rank and nothing else — no kickers; Two Pair carries
exactly the pair ranks' names, descending by numeric weight but still as
strings, and no kicker. -/
def ShapeOf (h : List Card) (sc : List JSVal) : Prop :=
  (sc = [.num 9, .num ((valsDesc h).headD 0)])
  ∨ (∃ r, countOf h r = 4 ∧ sc = [.num 8, .str (rankName r)])
  ∨ (∃ r, countOf h r = 3 ∧ sc = [.num 7, .str (rankName r)])
  ∨ (sc = .num 6 :: (valsDesc h).map .num)
  ∨ (sc = [.num 5, .num ((valsDesc h).headD 0)])
  ∨ (∃ r, countOf h r = 3 ∧ sc = [.num 4, .str (rankName r)])
  ∨ (∃ ps, (∀ r, r ∈ ps ↔ countOf h r = 2) ∧
        List.Chain' (fun a b : Rank => rankOrder b ≤ rankOrder a) ps ∧
        sc = .num 3 :: ps.map (fun r => .str (rankName r)))
  ∨ (∃ r, countOf h r = 2 ∧ sc = [.num 2, .str (rankName r)])
  ∨ (sc = .num 1 :: (valsDesc h).map .num)

/-- `rankHand`'s score array has the amended shape. -/
def ScoreShape (h : List Card) : Prop :=
  ShapeOf h ((rankHand h).score)

/-! # Lemmas -/

/-! ## Sanity checks (the spec's test vectors, and the comparator bug) -/

example : valueHand [⟨.rA, .spades⟩, ⟨.rK, .hearts⟩] = 21 := by decide
example : valueHand [⟨.rA, .spades⟩, ⟨.rA, .hearts⟩] = 12 := by decide
example : valueHand [⟨.r10, .spades⟩, ⟨.r9, .hearts⟩, ⟨.r5, .clubs⟩] = 24 := by decide

example :
    (rankHand [⟨.r10, .spades⟩, ⟨.r10, .hearts⟩, ⟨.r5, .diamonds⟩, ⟨.r4, .clubs⟩, ⟨.r2, .spades⟩]).name
      = "One Pair" := by decide

example :
    compareRank
      (rankHand [⟨.r10, .spades⟩, ⟨.r10, .hearts⟩, ⟨.r5, .diamonds⟩, ⟨.r4, .clubs⟩, ⟨.r2, .spades⟩])
      (rankHand [⟨.r9, .spades⟩, ⟨.r9, .hearts⟩, ⟨.r5, .diamonds⟩, ⟨.r4, .clubs⟩, ⟨.r2, .spades⟩])
      = -1 := by decide

/-! ## Ledger lookups and updates -/

theorem lookupBal_creditBal_self (us : List (String × Int)) (n : String) (amt : Int) :
    lookupBal (creditBal us n amt) n = (lookupBal us n).map (fun b => b + amt) := by
  induction us with
  | nil => rfl
  | cons q rest ih =>
    obtain ⟨k, v⟩ := q
    by_cases hk : k = n
    · simp only [creditBal, if_pos hk, lookupBal, alookup, if_pos hk]
      rfl
    · simp only [creditBal, if_neg hk, lookupBal, alookup, if_neg hk]
      exact ih

theorem lookupBal_creditBal_other (us : List (String × Int)) (n m : String) (amt : Int)
    (h : m ≠ n) :
    lookupBal (creditBal us n amt) m = lookupBal us m := by
  induction us with
  | nil => rfl
  | cons q rest ih =>
    obtain ⟨k, v⟩ := q
    by_cases hk : k = n
    · have hkm : ¬ k = m := fun e => h (e.symm.trans hk)
      simp only [creditBal, if_pos hk, lookupBal, alookup, if_neg hkm]
    · by_cases hm : k = m
      · simp only [creditBal, if_neg hk, lookupBal, alookup, if_pos hm]
      · simp only [creditBal, if_neg hk, lookupBal, alookup, if_neg hm]
        exact ih

theorem lookupBal_debitBal_self (us : List (String × Int)) (n : String) (amt : Int) :
    lookupBal (debitBal us n amt) n = (lookupBal us n).map (fun b => b - amt) := by
  induction us with
  | nil => rfl
  | cons q rest ih =>
    obtain ⟨k, v⟩ := q
    by_cases hk : k = n
    · simp only [debitBal, if_pos hk, lookupBal, alookup, if_pos hk]
      rfl
    · simp only [debitBal, if_neg hk, lookupBal, alookup, if_neg hk]
      exact ih

theorem lookupBal_debitBal_other (us : List (String × Int)) (n m : String) (amt : Int)
    (h : m ≠ n) :
    lookupBal (debitBal us n amt) m = lookupBal us m := by
  induction us with
  | nil => rfl
  | cons q rest ih =>
    obtain ⟨k, v⟩ := q
    by_cases hk : k = n
    · have hkm : ¬ k = m := fun e => h (e.symm.trans hk)
      simp only [debitBal, if_pos hk, lookupBal, alookup, if_neg hkm]
    · by_cases hm : k = m
      · simp only [debitBal, if_neg hk, lookupBal, alookup, if_pos hm]
      · simp only [debitBal, if_neg hk, lookupBal, alookup, if_neg hm]
        exact ih

theorem creditBal_nonneg (us : List (String × Int)) (n : String) (amt : Int)
    (hus : ∀ p ∈ us, 0 ≤ p.2) (hamt : 0 ≤ amt) :
    ∀ p ∈ creditBal us n amt, 0 ≤ p.2 := by
  induction us with
  | nil => intro p hp; cases hp
  | cons q rest ih =>
    obtain ⟨k, v⟩ := q
    intro p hp
    by_cases hk : k = n
    · rw [creditBal, if_pos hk] at hp
      rcases List.mem_cons.mp hp with hp | hp
      · have h0 : (0 : Int) ≤ v := hus (k, v) (List.mem_cons_self _ _)
        subst hp
        show 0 ≤ v + amt
        omega
      · exact hus p (List.mem_cons_of_mem _ hp)
    · rw [creditBal, if_neg hk] at hp
      rcases List.mem_cons.mp hp with hp | hp
      · subst hp; exact hus (k, v) (List.mem_cons_self _ _)
      · exact ih (fun q hq => hus q (List.mem_cons_of_mem _ hq)) p hp

theorem debitBal_nonneg (us : List (String × Int)) (n : String) (amt : Int)
    (hus : ∀ p ∈ us, 0 ≤ p.2)
    (hbal : ∀ b, lookupBal us n = some b → amt ≤ b) :
    ∀ p ∈ debitBal us n amt, 0 ≤ p.2 := by
  induction us with
  | nil => intro p hp; cases hp
  | cons q rest ih =>
    obtain ⟨k, v⟩ := q
    intro p hp
    by_cases hk : k = n
    · rw [debitBal, if_pos hk] at hp
      rcases List.mem_cons.mp hp with hp | hp
      · have hv : amt ≤ v := by
          apply hbal
          simp only [lookupBal, alookup, if_pos hk]
        subst hp
        show 0 ≤ v - amt
        omega
      · exact hus p (List.mem_cons_of_mem _ hp)
    · rw [debitBal, if_neg hk] at hp
      rcases List.mem_cons.mp hp with hp | hp
      · subst hp; exact hus (k, v) (List.mem_cons_self _ _)
      · refine ih (fun q hq => hus q (List.mem_cons_of_mem _ hq)) ?_ p hp
        intro b hb
        apply hbal
        simpa only [lookupBal, alookup, if_neg hk] using hb

theorem foldl_debit_lookup_notmem (names : List String) (us : List (String × Int))
    (amt : Int) (m : String) (hm : m ∉ names) :
    lookupBal (names.foldl (fun acc u => debitBal acc u amt) us) m = lookupBal us m := by
  induction names generalizing us with
  | nil => rfl
  | cons n rest ih =>
    have hmn : m ≠ n := fun e => hm (e ▸ List.mem_cons_self _ _)
    have hmr : m ∉ rest := fun e => hm (List.mem_cons_of_mem _ e)
    simp only [List.foldl_cons]
    rw [ih _ hmr, lookupBal_debitBal_other _ _ _ _ hmn]

theorem foldl_debit_lookup_mem (names : List String) (us : List (String × Int))
    (amt : Int) (m : String) (hnd : names.Nodup) (hm : m ∈ names) :
    lookupBal (names.foldl (fun acc u => debitBal acc u amt) us) m
      = (lookupBal us m).map (fun b => b - amt) := by
  induction names generalizing us with
  | nil => cases hm
  | cons n rest ih =>
    simp only [List.foldl_cons]
    rcases List.mem_cons.mp hm with he | hm'
    · subst he
      have hmr : m ∉ rest := (List.nodup_cons.mp hnd).1
      rw [foldl_debit_lookup_notmem _ _ _ _ hmr, lookupBal_debitBal_self]
    · have hmn : m ≠ n := fun e => (List.nodup_cons.mp hnd).1 (e ▸ hm')
      rw [ih _ (List.nodup_cons.mp hnd).2 hm', lookupBal_debitBal_other _ _ _ _ hmn]

theorem foldl_debit_nonneg (names : List String) (us : List (String × Int)) (amt : Int)
    (hus : ∀ p ∈ us, 0 ≤ p.2) (hnd : names.Nodup)
    (hbal : ∀ u ∈ names, ∀ b, lookupBal us u = some b → amt ≤ b) :
    ∀ p ∈ names.foldl (fun acc u => debitBal acc u amt) us, 0 ≤ p.2 := by
  induction names generalizing us with
  | nil => exact hus
  | cons n rest ih =>
    simp only [List.foldl_cons]
    refine ih _ ?_ (List.nodup_cons.mp hnd).2 ?_
    · exact debitBal_nonneg us n amt hus (hbal n (List.mem_cons_self _ _))
    · intro u hu b hb
      have hun : u ≠ n := fun e => (List.nodup_cons.mp hnd).1 (e ▸ hu)
      refine hbal u (List.mem_cons_of_mem _ hu) b ?_
      rwa [lookupBal_debitBal_other _ _ _ _ hun] at hb

/-! ## JS object assignment and deletion -/

theorem alookup_aset {κ α : Type} [DecidableEq κ] (l : List (κ × α)) (k k' : κ) (v : α) :
    alookup (aset l k v) k' = if k' = k then some v else alookup l k' := by
  induction l with
  | nil =>
    by_cases h : k' = k
    · simp only [aset, alookup, if_pos (h ▸ rfl : k = k'), if_pos h]
    · simp only [aset, alookup, if_neg (fun e : k = k' => h (e ▸ rfl)), if_neg h]
  | cons q rest ih =>
    obtain ⟨a, w⟩ := q
    by_cases ha : a = k
    · subst ha
      by_cases h : k' = a
      · simp only [aset, if_pos rfl, alookup, if_pos (h ▸ rfl : a = k'), if_pos h]
      · simp only [aset, if_pos rfl, alookup, if_neg (fun e : a = k' => h (e ▸ rfl)),
          if_neg h, if_neg (fun e : a = k' => h (e ▸ rfl))]
    · by_cases h : a = k'
      · have : ¬ k' = k := fun e => ha ((h ▸ rfl : a = k').trans e)
        simp only [aset, if_neg ha, alookup, if_pos h, if_neg this]
      · simp only [aset, if_neg ha, alookup, if_neg h]
        exact ih

theorem aset_mem {κ α : Type} [DecidableEq κ] (l : List (κ × α)) (k : κ) (v : α) :
    ∀ p ∈ aset l k v, p ∈ l ∨ p = (k, v) := by
  induction l with
  | nil =>
    intro p hp
    rcases List.mem_cons.mp hp with hp | hp
    · exact Or.inr hp
    · cases hp
  | cons q rest ih =>
    obtain ⟨a, w⟩ := q
    intro p hp
    by_cases ha : a = k
    · rw [aset, if_pos ha] at hp
      rcases List.mem_cons.mp hp with hp | hp
      · exact Or.inr (by rw [hp, ha])
      · exact Or.inl (List.mem_cons_of_mem _ hp)
    · rw [aset, if_neg ha] at hp
      rcases List.mem_cons.mp hp with hp | hp
      · exact Or.inl (hp ▸ List.mem_cons_self _ _)
      · rcases ih p hp with h | h
        · exact Or.inl (List.mem_cons_of_mem _ h)
        · exact Or.inr h

theorem alookup_adelete_self {κ α : Type} [DecidableEq κ] (l : List (κ × α)) (k : κ) :
    alookup (adelete l k) k = none := by
  induction l with
  | nil => rfl
  | cons q rest ih =>
    obtain ⟨a, w⟩ := q
    by_cases ha : a = k
    · rw [adelete, if_pos ha]
      exact ih
    · rw [adelete, if_neg ha, alookup, if_neg ha]
      exact ih

theorem alookup_adelete_other {κ α : Type} [DecidableEq κ] (l : List (κ × α)) (k k' : κ)
    (h : k' ≠ k) :
    alookup (adelete l k) k' = alookup l k' := by
  induction l with
  | nil => rfl
  | cons q rest ih =>
    obtain ⟨a, w⟩ := q
    by_cases ha : a = k
    · have haK : ¬ a = k' := fun e => h (e.symm.trans ha)
      rw [adelete, if_pos ha, alookup, if_neg haK]
      exact ih
    · by_cases h' : a = k'
      · rw [adelete, if_neg ha, alookup, if_pos h', alookup, if_pos h']
      · rw [adelete, if_neg ha, alookup, if_neg h', alookup, if_neg h']
        exact ih

theorem adelete_mem {κ α : Type} [DecidableEq κ] (l : List (κ × α)) (k : κ) :
    ∀ p ∈ adelete l k, p ∈ l := by
  induction l with
  | nil => intro p hp; cases hp
  | cons q rest ih =>
    obtain ⟨a, w⟩ := q
    intro p hp
    by_cases ha : a = k
    · rw [adelete, if_pos ha] at hp
      exact List.mem_cons_of_mem _ (ih p hp)
    · rw [adelete, if_neg ha] at hp
      rcases List.mem_cons.mp hp with hp | hp
      · exact hp ▸ List.mem_cons_self _ _
      · exact List.mem_cons_of_mem _ (ih p hp)

/-! ## Sorting -/

theorem insertBy_perm {α : Type} (lt : α → α → Bool) (x : α) (l : List α) :
    (insertBy lt x l).Perm (x :: l) := by
  induction l with
  | nil => exact List.Perm.refl _
  | cons y ys ih =>
    by_cases h : lt x y
    · rw [insertBy, if_pos h]
    · rw [insertBy, if_neg h]
      exact (List.Perm.cons y ih).trans (List.Perm.swap x y ys)

theorem sortBy_perm {α : Type} (lt : α → α → Bool) (l : List α) :
    (sortBy lt l).Perm l := by
  suffices h : ∀ acc : List α, (l.foldl (fun a x => insertBy lt x a) acc).Perm (acc ++ l) by
    simpa using h []
  induction l with
  | nil => intro acc; simp
  | cons y ys ih =>
    intro acc
    simp only [List.foldl_cons]
    refine (ih (insertBy lt y acc)).trans ?_
    refine (List.Perm.append_right ys (insertBy_perm lt y acc)).trans ?_
    exact List.perm_middle.symm

theorem sortBy_mem {α : Type} (lt : α → α → Bool) (l : List α) (a : α) :
    a ∈ sortBy lt l ↔ a ∈ l :=
  (sortBy_perm lt l).mem_iff

theorem sortBy_length {α : Type} (lt : α → α → Bool) (l : List α) :
    (sortBy lt l).length = l.length :=
  (sortBy_perm lt l).length_eq

theorem sortBy_headD_mem {α : Type} (lt : α → α → Bool) (l : List α) (d : α)
    (h : l ≠ []) : (sortBy lt l).headD d ∈ l := by
  have hne : sortBy lt l ≠ [] := by
    intro he
    have := sortBy_length lt l
    rw [he] at this
    exact h (List.length_eq_zero.mp this.symm)
  rw [← sortBy_mem lt]
  cases hs : sortBy lt l with
  | nil => exact absurd hs hne
  | cons a rest => simp [hs]

/-- Insertion into a descending chain stays a descending chain, given
asymmetry of the strict order. -/
theorem insertBy_chain {α : Type} (lt : α → α → Bool)
    (hasym : ∀ a b, lt a b = true → lt b a = false) (x : α) (l : List α)
    (hl : List.Chain' (fun a b => lt b a = false) l) :
    List.Chain' (fun a b => lt b a = false) (insertBy lt x l) := by
  induction l with
  | nil => exact List.chain'_singleton x
  | cons y ys ih =>
    by_cases h : lt x y
    · rw [insertBy, if_pos h]
      exact List.Chain'.cons (hasym x y h) hl
    · rw [insertBy, if_neg h]
      rw [List.chain'_cons']
      constructor
      · intro z hz
        cases ys with
        | nil =>
          simp only [insertBy, List.head?_cons, Option.mem_def, Option.some.injEq] at hz
          subst hz
          simpa using h
        | cons w ws =>
          by_cases hw : lt x w
          · rw [insertBy, if_pos hw] at hz
            simp only [List.head?_cons, Option.mem_def, Option.some.injEq] at hz
            subst hz
            simpa using h
          · rw [insertBy, if_neg hw] at hz
            simp only [List.head?_cons, Option.mem_def, Option.some.injEq] at hz
            subst hz
            exact (List.chain'_cons.mp hl).1
      · exact ih (List.chain'_cons'.mp hl).2

theorem sortBy_chain {α : Type} (lt : α → α → Bool)
    (hasym : ∀ a b, lt a b = true → lt b a = false) (l : List α) :
    List.Chain' (fun a b => lt b a = false) (sortBy lt l) := by
  suffices h : ∀ acc : List α, List.Chain' (fun a b => lt b a = false) acc →
      List.Chain' (fun a b => lt b a = false) (l.foldl (fun a x => insertBy lt x a) acc) by
    exact h [] List.chain'_nil
  induction l with
  | nil => intro acc hacc; exact hacc
  | cons y ys ih =>
    intro acc hacc
    simp only [List.foldl_cons]
    exact ih _ (insertBy_chain lt hasym y acc hacc)

/-! ## Key enumeration -/

theorem mem_dedupFirstAux {α : Type} [DecidableEq α] (l : List α) (seen : List α) (a : α) :
    a ∈ dedupFirstAux seen l ↔ a ∈ l ∧ a ∉ seen := by
  induction l generalizing seen with
  | nil => simp [dedupFirstAux]
  | cons x xs ih =>
    by_cases hx : x ∈ seen
    · rw [dedupFirstAux, if_pos hx, ih]
      constructor
      · exact fun ⟨h1, h2⟩ => ⟨List.mem_cons_of_mem _ h1, h2⟩
      · rintro ⟨h1, h2⟩
        rcases List.mem_cons.mp h1 with rfl | h1
        · exact absurd hx h2
        · exact ⟨h1, h2⟩
    · rw [dedupFirstAux, if_neg hx]
      constructor
      · intro h
        rcases List.mem_cons.mp h with rfl | h
        · exact ⟨List.mem_cons_self _ _, hx⟩
        · have := (ih (x :: seen)).mp h
          exact ⟨List.mem_cons_of_mem _ this.1,
            fun hs => this.2 (List.mem_cons_of_mem _ hs)⟩
      · rintro ⟨h1, h2⟩
        rcases List.mem_cons.mp h1 with rfl | h1
        · exact List.mem_cons_self _ _
        · by_cases hax : a = x
          · exact hax ▸ List.mem_cons_self _ _
          · exact List.mem_cons_of_mem _ ((ih (x :: seen)).mpr
              ⟨h1, fun hs => by
                rcases List.mem_cons.mp hs with h | h
                exacts [hax h, h2 h]⟩)

theorem mem_dedupFirst {α : Type} [DecidableEq α] (l : List α) (a : α) :
    a ∈ dedupFirst l ↔ a ∈ l := by
  rw [dedupFirst, mem_dedupFirstAux]
  simp

theorem countOf_ne_zero (hand : List Card) (r : Rank) :
    countOf hand r ≠ 0 ↔ ∃ c ∈ hand, c.r = r := by
  rw [countOf]
  constructor
  · intro h
    rcases List.exists_mem_of_length_pos (Nat.pos_of_ne_zero h) with ⟨c, hc⟩
    exact ⟨c, List.mem_of_mem_filter hc, by simpa using List.of_mem_filter hc⟩
  · rintro ⟨c, hc, hr⟩
    intro hlen
    have : c ∈ hand.filter (fun c => decide (c.r = r)) :=
      List.mem_filter.mpr ⟨hc, by simpa using hr⟩
    rw [List.length_eq_zero.mp hlen] at this
    cases this

theorem mem_keysInJSOrder (hand : List Card) (r : Rank) :
    r ∈ keysInJSOrder hand ↔ countOf hand r ≠ 0 := by
  rw [keysInJSOrder, countOf_ne_zero]
  simp only [List.mem_append, sortBy_mem, List.mem_filter, mem_dedupFirst, List.mem_map]
  constructor
  · rintro (⟨⟨c, hc, rfl⟩, _⟩ | ⟨⟨c, hc, rfl⟩, _⟩) <;> exact ⟨c, hc, rfl⟩
  · rintro ⟨c, hc, rfl⟩
    by_cases hn : isNumericKey c.r
    · exact Or.inl ⟨⟨c, hc, rfl⟩, hn⟩
    · exact Or.inr ⟨⟨c, hc, rfl⟩, by simpa using hn⟩

/-! ## `find?` helpers -/

theorem find?_isSome_of_exists {α : Type} (p : α → Bool) (l : List α)
    (h : ∃ a ∈ l, p a = true) : ∃ a, l.find? p = some a := by
  induction l with
  | nil => rcases h with ⟨a, ha, _⟩; cases ha
  | cons x xs ih =>
    by_cases hx : p x
    · exact ⟨x, List.find?_cons_of_pos _ hx⟩
    · rcases h with ⟨a, ha, hpa⟩
      rcases List.mem_cons.mp ha with rfl | ha
      · exact absurd hpa hx
      · rcases ih ⟨a, ha, hpa⟩ with ⟨b, hb⟩
        exact ⟨b, by rw [List.find?_cons_of_neg _ hx]; exact hb⟩

/-- If some rank multiplicity list head (the sorted `freq[0]`) equals a
nonzero `k`, a rank with exactly `k` copies exists in the keys. -/
theorem freq_head_exists (hand : List Card) (k : Int) (hk : k ≠ 0)
    (h : (freqDesc hand).getD 0 0 = k) :
    ∃ r ∈ keysInJSOrder hand, (countOf hand r : Int) = k := by
  rcases hf : freqDesc hand with _ | ⟨a, rest⟩
  · rw [hf] at h
    simp only [List.getD, List.getElem?_nil, Option.getD_none] at h
    exact absurd h.symm hk
  · have ha : a ∈ freqDesc hand := by rw [hf]; exact List.mem_cons_self _ _
    have hak : a = k := by
      rw [hf] at h
      simpa [List.getD] using h
    rw [freqDesc, sortIntDesc, sortBy_mem] at ha
    rcases List.mem_map.mp ha with ⟨r, hr, hrk⟩
    exact ⟨r, hr, by rw [hrk, hak]⟩

/-- In a branch where `freq[0] = k ≠ 0`, `getKeyByValue` finds a key with
multiplicity `k`, so `keyScore` is that key's name string. -/
theorem keyScore_eq (hand : List Card) (k : Nat) (hk : (k : Int) ≠ 0)
    (h : (freqDesc hand).getD 0 0 = (k : Int)) :
    ∃ r, countOf hand r = k ∧ keyScore hand k = .str (rankName r) := by
  rcases freq_head_exists hand (k : Int) hk h with ⟨r, hr, hrk⟩
  have hex : ∃ a ∈ keysInJSOrder hand, (fun r => decide (countOf hand r = k)) a = true :=
    ⟨r, hr, by simpa using hrk⟩
  rcases find?_isSome_of_exists _ _ hex with ⟨r', hr'⟩
  have hcount : countOf hand r' = k := by simpa using List.find?_some hr'
  exact ⟨r', hcount, by rw [keyScore, getKeyByValue, hr']⟩

/-! ## Deck pops, dealing, the dealer loop -/

theorem popN_concat (n : Nat) (e : List Card) (c : Card) :
    popN (n + 1) (e ++ [c]) = (c :: (popN n e).1, (popN n e).2) := by
  have h1 : (e ++ [c]).getLast? = some c := by simp
  have h2 : (e ++ [c]).dropLast = e := by simp
  simp only [popN, h1, h2]

theorem dealAll_users (d : List Card) (us : List String) :
    ((dealAll d us).1).map Prod.fst = us := by
  induction us generalizing d with
  | nil => rfl
  | cons u rest ih => simp [dealAll, ih]

/-- The dealer loop ends only with a hand of value at least 17 or an empty
deck, provided the fuel exceeds the deck size (as `dealerLoop` arranges). -/
theorem dealerLoopAux_post (fuel : Nat) (deck dealer : List Card)
    (hf : deck.length < fuel) :
    17 ≤ valueHand (dealerLoopAux fuel deck dealer).2
      ∨ (dealerLoopAux fuel deck dealer).1 = [] := by
  induction fuel generalizing deck dealer with
  | zero => omega
  | succ f ih =>
    rw [dealerLoopAux]
    by_cases hv : valueHand dealer < 17
    · rw [if_pos hv]
      cases hd : deck.getLast? with
      | none =>
        simp only []
        right
        exact List.getLast?_eq_none_iff.mp hd
      | some c =>
        simp only []
        apply ih
        have hne : deck ≠ [] := by intro h; rw [h] at hd; cases hd
        have hpos : 0 < deck.length := List.length_pos.mpr hne
        rw [List.length_dropLast]
        omega
    · rw [if_neg hv]
      left
      show 17 ≤ valueHand dealer
      omega

/-! ## Structure of `cmpSeq` -/

theorem charListLt_irrefl (l : List Char) : charListLt l l = false := by
  induction l with
  | nil => rfl
  | cons a as ih => simp [charListLt, lt_irrefl, ih]

theorem jsGtVal_irrefl (v : JSVal) : jsGtVal v v = false := by
  cases v with
  | num n => simp [jsGtVal, toNumber]
  | str s => simp [jsGtVal, jsStrLt, charListLt_irrefl]

theorem jsLtVal_irrefl (v : JSVal) : jsLtVal v v = false := by
  cases v with
  | num n => simp [jsLtVal, toNumber]
  | str s => simp [jsLtVal, jsStrLt, charListLt_irrefl]

theorem cmpFrom_shift (a b : List JSVal) (x y : JSVal) (fuel : Nat) :
    ∀ i, cmpFrom (x :: a) (y :: b) (i + 1) fuel = cmpFrom a b i fuel := by
  induction fuel with
  | zero => intro i; rfl
  | succ f ih =>
    intro i
    rw [cmpFrom, cmpFrom]
    have hx : scoreGet (x :: a) (i + 1) = scoreGet a i := rfl
    have hy : scoreGet (y :: b) (i + 1) = scoreGet b i := rfl
    rw [hx, hy]
    simp only [ih]

theorem scoreGet_cons_zero (x : JSVal) (t : List JSVal) :
    scoreGet (x :: t) 0 = scoreGet [x] 0 := rfl

theorem scoreGet_num_cons (n : Int) (t : List JSVal) :
    scoreGet (.num n :: t) 0 = .num n := by
  by_cases h : n = 0 <;> simp [scoreGet, h]

theorem cmpSeq_cons_same (x : JSVal) (t1 t2 : List JSVal) :
    cmpSeq (x :: t1) (x :: t2) = cmpSeq t1 t2 := by
  rw [cmpSeq, cmpSeq]
  have hm : max (x :: t1).length (x :: t2).length = max t1.length t2.length + 1 := by
    simp [Nat.succ_max_succ]
  rw [hm, cmpFrom]
  have hg : jsGtVal (scoreGet (x :: t1) 0) (scoreGet (x :: t2) 0) = false := by
    rw [scoreGet_cons_zero, scoreGet_cons_zero x t2]
    exact jsGtVal_irrefl _
  have hl : jsLtVal (scoreGet (x :: t1) 0) (scoreGet (x :: t2) 0) = false := by
    rw [scoreGet_cons_zero, scoreGet_cons_zero x t2]
    exact jsLtVal_irrefl _
  simp only [hg, hl, if_false, Bool.false_eq_true]
  exact cmpFrom_shift t1 t2 x x _ 0

theorem cmpSeq_num_head_gt (c1 c2 : Int) (t1 t2 : List JSVal) (h : c2 < c1) :
    cmpSeq (.num c1 :: t1) (.num c2 :: t2) = 1 := by
  rw [cmpSeq]
  have hm : max (JSVal.num c1 :: t1).length (JSVal.num c2 :: t2).length
      = max t1.length t2.length + 1 := by
    simp [Nat.succ_max_succ]
  rw [hm, cmpFrom, scoreGet_num_cons, scoreGet_num_cons]
  have : jsGtVal (.num c1) (.num c2) = true := by
    simp only [jsGtVal, toNumber]
    exact decide_eq_true h
  rw [this]
  rfl

theorem cmpSeq_refl (s : List JSVal) : cmpSeq s s = 0 := by
  induction s with
  | nil => rfl
  | cons x t ih => rw [cmpSeq_cons_same]; exact ih

theorem cmpSeq_str_singleton (s1 s2 : String) (h1 : s1 ≠ "") (h2 : s2 ≠ "") :
    cmpSeq [.str s1] [.str s2]
      = if jsStrLt s2 s1 then 1 else if jsStrLt s1 s2 then -1 else 0 := by
  rw [cmpSeq]
  have hm : max ([JSVal.str s1]).length ([JSVal.str s2]).length = 1 := rfl
  rw [hm, cmpFrom]
  have hs1 : scoreGet [JSVal.str s1] 0 = .str s1 := by simp [scoreGet, h1]
  have hs2 : scoreGet [JSVal.str s2] 0 = .str s2 := by simp [scoreGet, h2]
  rw [hs1, hs2]
  have hg : jsGtVal (.str s1) (.str s2) = jsStrLt s2 s1 := rfl
  have hl : jsLtVal (.str s1) (.str s2) = jsStrLt s1 s2 := rfl
  rw [hg, hl]
  by_cases ha : jsStrLt s2 s1 = true
  · rw [if_pos ha, if_pos ha]
  · rw [if_neg ha, if_neg ha]
    by_cases hb : jsStrLt s1 s2 = true
    · rw [if_pos hb, if_pos hb]
    · rw [if_neg hb, if_neg hb]
      rfl

/-! ## Miscellaneous helpers -/

theorem alookup_some_mem {κ α : Type} [DecidableEq κ] (l : List (κ × α)) (k : κ) (v : α)
    (h : alookup l k = some v) : (k, v) ∈ l := by
  induction l with
  | nil => cases h
  | cons q rest ih =>
    obtain ⟨a, w⟩ := q
    by_cases ha : a = k
    · rw [alookup, if_pos ha] at h
      subst ha
      cases h
      exact List.mem_cons_self _ _
    · rw [alookup, if_neg ha] at h
      exact List.mem_cons_of_mem _ (ih h)

theorem getLast?_some_mem {α : Type} (l : List α) (a : α) (h : l.getLast? = some a) :
    a ∈ l := by
  cases l with
  | nil => cases h
  | cons x xs => exact List.mem_of_mem_getLast? h

theorem getD_zero_eq_headD {α : Type} (l : List α) (d : α) : l.getD 0 d = l.headD d := by
  cases l <;> rfl

theorem getD_mem {α : Type} (l : List α) (n : Nat) (d : α) (h : n < l.length) :
    l.getD n d ∈ l := by
  induction l generalizing n with
  | nil => simp at h
  | cons x xs ih =>
    cases n with
    | zero => exact List.mem_cons_self _ _
    | succ m =>
      have : m < xs.length := by simpa using h
      exact List.mem_cons_of_mem _ (ih m this)

theorem getLast?_append_singleton {α : Type} (l : List α) (a : α) :
    (l ++ [a]).getLast? = some a := by simp

theorem dropLast_append_singleton {α : Type} (l : List α) (a : α) :
    (l ++ [a]).dropLast = l := by simp

/-! # Claims -/

/-! ## C9 — trade status transitions -/

/-- C9 counterexample: `trade_accept` moves a PENDING trade to ACCEPTED, but
a following `trade_decline` on the same id moves it again, to DECLINED — the
claim's "a decline after an accept leaves the status ACCEPTED" is false. -/
theorem c9_counterexample :
    (alookup (tradeAccept
        { users := [], online := [], giveaways := [], bjStates := [],
          trades := [(1, { src := "alice", dst := "bob", status := .pending })] } 1).trades
        1).map (fun t => t.status) = some .accepted
    ∧ (alookup (tradeDecline (tradeAccept
        { users := [], online := [], giveaways := [], bjStates := [],
          trades := [(1, { src := "alice", dst := "bob", status := .pending })] } 1) 1).trades
        1).map (fun t => t.status) = some .declined := by
  constructor
  · rfl
  · rfl

/-- C9 (amended): `accept(id)` is a no-op when the id is unknown or the
status is not PENDING (so a second `tradeAccept` is a no-op), and moves a
PENDING trade to ACCEPTED; but `decline(id)` is a no-op only when the id is
unknown — on an existing trade it sets DECLINED from *any* status, so a
decline after an accept leaves the status DECLINED, not ACCEPTED. -/
theorem c9_trade_transitions :
    (∀ st : GState, ∀ id : Nat, alookup st.trades id = none → tradeAccept st id = st)
    ∧ (∀ st : GState, ∀ id : Nat, ∀ t : Trade, alookup st.trades id = some t →
        t.status ≠ .pending → tradeAccept st id = st)
    ∧ (∀ st : GState, ∀ id : Nat, ∀ t : Trade, alookup st.trades id = some t →
        t.status = .pending →
        alookup (tradeAccept st id).trades id = some { t with status := .accepted })
    ∧ (∀ st : GState, ∀ id : Nat, alookup st.trades id = none → tradeDecline st id = st)
    ∧ (∀ st : GState, ∀ id : Nat, ∀ t : Trade, alookup st.trades id = some t →
        alookup (tradeDecline st id).trades id = some { t with status := .declined }) := by
  refine ⟨?_, ?_, ?_, ?_, ?_⟩
  · intro st id h
    rw [tradeAccept, h]
  · intro st id t h hs
    rw [tradeAccept, h]
    simp only [if_pos hs]
  · intro st id t h hs
    rw [tradeAccept, h]
    simp only [hs, ne_eq, not_true_eq_false, if_false]
    simp [alookup_aset]
  · intro st id h
    rw [tradeDecline, h]
  · intro st id t h
    rw [tradeDecline, h]
    simp [alookup_aset]

/-- C9 witness: the amended transitions at a concrete trade table. -/
theorem c9_witness :
    tradeAccept
      { users := [], online := [], giveaways := [], bjStates := [],
        trades := [(4, { src := "a", dst := "b", status := .declined })] } 4
      = { users := [], online := [], giveaways := [], bjStates := [],
          trades := [(4, { src := "a", dst := "b", status := .declined })] }
    ∧ alookup (tradeDecline
        { users := [], online := [], giveaways := [], bjStates := [],
          trades := [(2, { src := "a", dst := "b", status := .accepted })] } 2).trades 2
      = some { src := "a", dst := "b", status := .declined } := by
  constructor
  · exact c9_trade_transitions.2.1 _ 4 { src := "a", dst := "b", status := .declined }
      (by decide) (by decide)
  · exact c9_trade_transitions.2.2.2.2 _ 2 { src := "a", dst := "b", status := .accepted }
      (by decide)

/-! ## C6 — `/enter` targets the queue *tail*, not the head -/

/-- C6 counterexample: with two queued giveaways — the head's entrant set
already holding `"bob"`, the tail's empty — the claim predicts
`AlreadyEntered` with entrant sets unchanged; the source instead accepts the
entry and appends `"bob"` to the *tail* giveaway (`giveaways[length-1]`),
leaving the head untouched. -/
theorem c6_counterexample :
    (enterCmd
      { users := [("alice", 60), ("bob", 100)], online := ["alice", "bob"],
        giveaways :=
          [{ id := 1, host := "alice", amount := 20, entrants := ["bob"], createdAt := 0 },
           { id := 2, host := "alice", amount := 30, entrants := [], createdAt := 10 }],
        bjStates := [], trades := [] } (some "bob")).2 = .entered
    ∧ ((enterCmd
      { users := [("alice", 60), ("bob", 100)], online := ["alice", "bob"],
        giveaways :=
          [{ id := 1, host := "alice", amount := 20, entrants := ["bob"], createdAt := 0 },
           { id := 2, host := "alice", amount := 30, entrants := [], createdAt := 10 }],
        bjStates := [], trades := [] } (some "bob")).1.giveaways.map (fun g => g.entrants))
      = [["bob"], ["bob"]] := by
  exact ⟨by decide, by decide⟩

/-- C6 (amended): `enter(user)` applies only to the queue *tail* — the most
recently opened giveaway, `giveaways[giveaways.length-1]` — not the head the
scheduler resolves.  It fails `NoActiveGiveaway` when the queue is empty and
`AlreadyEntered` when the user is already in the tail giveaway's entrant set
(state unchanged, so entering twice is idempotent); otherwise the user is
appended to the tail giveaway's entrant set, giveaways earlier in the queue
unchanged. -/
theorem c6_enter_targets_tail :
    (∀ st : GState, ∀ s : Option String, st.giveaways = [] →
      enterCmd st s = (st, .noActive))
    ∧ (∀ st : GState, ∀ s : Option String, ∀ g : Giveaway,
        st.giveaways.getLast? = some g → s.getD "guest" ∈ g.entrants →
        enterCmd st s = (st, .alreadyEntered))
    ∧ (∀ st : GState, ∀ s : Option String, ∀ g : Giveaway,
        st.giveaways.getLast? = some g → s.getD "guest" ∉ g.entrants →
        (enterCmd st s).2 = .entered
        ∧ (enterCmd st s).1.giveaways.getLast?
            = some { g with entrants := g.entrants ++ [s.getD "guest"] }
        ∧ (enterCmd st s).1.giveaways.dropLast = st.giveaways.dropLast)
    ∧ (∀ st : GState, ∀ s : Option String,
        (enterCmd (enterCmd st s).1 s).1 = (enterCmd st s).1) := by
  have hfail : ∀ st : GState, ∀ s : Option String, st.giveaways = [] →
      enterCmd st s = (st, .noActive) := by
    intro st s h
    rw [enterCmd]
    simp only [h, List.getLast?_nil]
  have halready : ∀ st : GState, ∀ s : Option String, ∀ g : Giveaway,
      st.giveaways.getLast? = some g → s.getD "guest" ∈ g.entrants →
      enterCmd st s = (st, .alreadyEntered) := by
    intro st s g hg hm
    rw [enterCmd]
    simp only [hg, if_pos hm]
  have hsucc : ∀ st : GState, ∀ s : Option String, ∀ g : Giveaway,
      st.giveaways.getLast? = some g → s.getD "guest" ∉ g.entrants →
      enterCmd st s =
        ({ st with giveaways := st.giveaways.dropLast
            ++ [{ g with entrants := g.entrants ++ [s.getD "guest"] }] }, .entered) := by
    intro st s g hg hm
    rw [enterCmd]
    simp only [hg, if_neg hm]
  have hok : ∀ st : GState, ∀ s : Option String, ∀ g : Giveaway,
      st.giveaways.getLast? = some g → s.getD "guest" ∉ g.entrants →
      (enterCmd st s).2 = .entered
      ∧ (enterCmd st s).1.giveaways.getLast?
          = some { g with entrants := g.entrants ++ [s.getD "guest"] }
      ∧ (enterCmd st s).1.giveaways.dropLast = st.giveaways.dropLast := by
    intro st s g hg hm
    rw [hsucc st s g hg hm]
    exact ⟨rfl, by simp, by simp⟩
  refine ⟨hfail, halready, hok, ?_⟩
  intro st s
  rcases hg : st.giveaways.getLast? with _ | g
  · have hnil : st.giveaways = [] := List.getLast?_eq_none_iff.mp hg
    rw [hfail st s hnil]
    show (enterCmd st s).1 = st
    rw [hfail st s hnil]
  · by_cases hm : s.getD "guest" ∈ g.entrants
    · rw [halready st s g hg hm]
      show (enterCmd st s).1 = st
      rw [halready st s g hg hm]
    · rw [hsucc st s g hg hm]
      show (enterCmd { st with giveaways := st.giveaways.dropLast
          ++ [{ g with entrants := g.entrants ++ [s.getD "guest"] }] } s).1 = _
      rw [halready _ s { g with entrants := g.entrants ++ [s.getD "guest"] } (by simp) (by simp)]

/-- C6 witness: the amended behavior at a concrete two-giveaway queue. -/
theorem c6_witness :
    (enterCmd
      { users := [], online := [],
        giveaways :=
          [{ id := 1, host := "a", amount := 5, entrants := ["u"], createdAt := 0 },
           { id := 2, host := "a", amount := 5, entrants := [], createdAt := 1 }],
        bjStates := [], trades := [] } (some "u")).2 = .entered := by
  exact (c6_enter_targets_tail.2.2.1 _ (some "u")
    { id := 2, host := "a", amount := 5, entrants := [], createdAt := 1 }
    (by decide) (by decide)).1

/-! ## C10 — unauthenticated `/enter` joins as `"guest"` -/

/-- C10: a `/enter` chat event on a connection with no authenticated
identity is not rejected for lack of authentication: with an open giveaway
whose entrant set lacks the literal `"guest"` — an id with no ledger user —
the sender defaults to `"guest"` (`sockets[socket.id] || "guest"`) and is
appended to that giveaway's entrant set. -/
theorem c10_guest_enter (st : GState) (g : Giveaway)
    (hg : st.giveaways.getLast? = some g)
    (hm : "guest" ∉ g.entrants)
    (_hledger : lookupBal st.users "guest" = none) :
    (enterCmd st none).2 = .entered
    ∧ (enterCmd st none).1.giveaways.getLast?
        = some { g with entrants := g.entrants ++ ["guest"] } := by
  have hguest : (none : Option String).getD "guest" = "guest" := rfl
  rw [enterCmd]
  simp only [hg, hguest, if_neg hm]
  exact ⟨trivial, by simp⟩

/-- C10 witness: the guest entry at a concrete one-giveaway queue with no
`"guest"` ledger entry. -/
theorem c10_witness :
    (enterCmd
      { users := [("alice", 80)], online := ["alice"],
        giveaways := [{ id := 1, host := "alice", amount := 20, entrants := [], createdAt := 0 }],
        bjStates := [], trades := [] } none).2 = .entered := by
  exact (c10_guest_enter _
    { id := 1, host := "alice", amount := 20, entrants := [], createdAt := 0 }
    (by decide) (by decide) (by decide)).1

/-! ## C7 — `bj_start` validation and dealing -/

/-- Four pops off a deck ending in `[c4, c3, c2, c1]` yield `[c1, c2, c3, c4]`
and leave the prefix. -/
theorem popN_four (e : List Card) (c1 c2 c3 c4 : Card) :
    popN 4 (e ++ [c4, c3, c2, c1]) = ([c1, c2, c3, c4], e) := by
  have h : e ++ [c4, c3, c2, c1] = ((e ++ [c4]) ++ [c3] ++ [c2]) ++ [c1] := by simp
  rw [h, popN_concat, popN_concat, popN_concat, popN_concat]
  rfl

/-- C7 counterexample: `bj_start` has no `bet ≤ 0` validation.  With balance
100 and `bet = -5` the claim predicts an `InvalidAmount` failure leaving
balance and game state unchanged; the source *starts the game*, debits the
negative bet (balance becomes 105) and creates a state. -/
theorem c7_counterexample :
    (bjStart
      { users := [("alice", 100)], online := ["alice"], giveaways := [],
        bjStates := [], trades := [] } (some "alice") (-5)
      [⟨.r2, .spades⟩, ⟨.r3, .spades⟩, ⟨.r4, .spades⟩, ⟨.r5, .spades⟩,
       ⟨.r6, .spades⟩, ⟨.r7, .spades⟩]).2 = .started
    ∧ lookupBal (bjStart
      { users := [("alice", 100)], online := ["alice"], giveaways := [],
        bjStates := [], trades := [] } (some "alice") (-5)
      [⟨.r2, .spades⟩, ⟨.r3, .spades⟩, ⟨.r4, .spades⟩, ⟨.r5, .spades⟩,
       ⟨.r6, .spades⟩, ⟨.r7, .spades⟩]).1.users "alice" = some 105
    ∧ (alookup (bjStart
      { users := [("alice", 100)], online := ["alice"], giveaways := [],
        bjStates := [], trades := [] } (some "alice") (-5)
      [⟨.r2, .spades⟩, ⟨.r3, .spades⟩, ⟨.r4, .spades⟩, ⟨.r5, .spades⟩,
       ⟨.r6, .spades⟩, ⟨.r7, .spades⟩]).1.bjStates "alice").isSome = true := by
  exact ⟨by decide, by decide, by decide⟩

/-- C7 (amended): `bj_start` fails (only) with `not enough funds` when
`balance < bet`, leaving the whole state unchanged — there is *no*
`InvalidAmount` check, so any `bet ≤ 0` passes the guard whenever
`balance ≥ bet` (a negative bet even credits the player).  On success the
bet is debited immediately, two cards go to the player and two to the
dealer, popped off the end of the fresh deck, and an in-progress state is
created. -/
theorem c7_bjstart (st : GState) (u : String) (b bet : Int) (e : List Card)
    (c1 c2 c3 c4 : Card) (hb : lookupBal st.users u = some b) :
    (b < bet → bjStart st (some u) bet (e ++ [c4, c3, c2, c1]) = (st, .notEnoughFunds))
    ∧ (bet ≤ b →
        (bjStart st (some u) bet (e ++ [c4, c3, c2, c1])).2 = .started
        ∧ lookupBal (bjStart st (some u) bet (e ++ [c4, c3, c2, c1])).1.users u
            = some (b - bet)
        ∧ (∀ m, m ≠ u →
            lookupBal (bjStart st (some u) bet (e ++ [c4, c3, c2, c1])).1.users m
              = lookupBal st.users m)
        ∧ alookup (bjStart st (some u) bet (e ++ [c4, c3, c2, c1])).1.bjStates u
            = some { deck := e, player := [c1, c2], dealer := [c3, c4],
                     bet := bet, done := false }) := by
  constructor
  · intro hlt
    rw [bjStart]
    simp only [hb, if_pos hlt]
  · intro hle
    have hnlt : ¬ b < bet := not_lt.mpr hle
    rw [bjStart]
    simp only [hb, if_neg hnlt, popN_four]
    refine ⟨trivial, ?_, ?_, ?_⟩
    · rw [lookupBal_debitBal_self, hb]
      rfl
    · intro m hm
      exact lookupBal_debitBal_other _ _ _ _ hm
    · rw [alookup_aset, if_pos rfl]
      rfl

/-- C7 witness: a concrete start with bet 10 from balance 100. -/
theorem c7_witness :
    (bjStart
      { users := [("alice", 100)], online := ["alice"], giveaways := [],
        bjStates := [], trades := [] } (some "alice") 10
      ([⟨.r2, .spades⟩, ⟨.r3, .spades⟩]
        ++ [⟨.r4, .spades⟩, ⟨.r5, .spades⟩, ⟨.r6, .spades⟩, ⟨.r7, .spades⟩])).2 = .started := by
  exact ((c7_bjstart _ "alice" 100 10 [⟨.r2, .spades⟩, ⟨.r3, .spades⟩]
    ⟨.r7, .spades⟩ ⟨.r6, .spades⟩ ⟨.r5, .spades⟩ ⟨.r4, .spades⟩ (by decide)).2
    (by decide)).1

/-! ## C8 — blackjack settlement is not terminal for `hit` -/

/-- C8 counterexample: a state already settled by a busting hit
(`done = true`, player at 25) is *not* destroyed, and a further `hit` still
draws a card into the hand — the claim's "after that no further hit or stand
action by that user changes any hand, state, or balance" is false. -/
theorem c8_counterexample :
    (alookup (bjHit
      { users := [("alice", 90)], online := ["alice"], giveaways := [],
        bjStates := [("alice",
          { deck := [⟨.r7, .spades⟩],
            player := [⟨.rK, .spades⟩, ⟨.rQ, .hearts⟩, ⟨.r5, .clubs⟩],
            dealer := [⟨.r9, .spades⟩, ⟨.r9, .hearts⟩], bet := 10, done := true })],
        trades := [] } (some "alice")).bjStates "alice").map (fun s => s.player)
      = some [⟨.rK, .spades⟩, ⟨.rQ, .hearts⟩, ⟨.r5, .clubs⟩, ⟨.r7, .spades⟩] := by
  decide

/-- C8 (amended): `hit` requires an *existing* state for the user (else it
is ignored), but does not consult `done`: a hit that pushes the value over
21 marks the state SETTLED with the bet forfeited — `hit` never changes any
balance — yet the state is destroyed only by `stand`; after such a
settlement further hits still append cards to the hand, and a `stand` on a
busted hand settles without credit and destroys the state. -/
theorem c8_bj_state_machine :
    (∀ st : GState, bjHit st none = st)
    ∧ (∀ st : GState, ∀ u : String, alookup st.bjStates u = none →
        bjHit st (some u) = st)
    ∧ (∀ st : GState, ∀ sender : Option String, (bjHit st sender).users = st.users)
    ∧ (∀ st : GState, ∀ u : String, ∀ s : BJState, ∀ c : Card,
        alookup st.bjStates u = some s → s.deck.getLast? = some c →
        alookup (bjHit st (some u)).bjStates u
          = some { s with
                    deck := s.deck.dropLast
                    player := s.player ++ [c]
                    done := if valueHand (s.player ++ [c]) > 21 then true else s.done })
    ∧ (∀ st : GState, ∀ u : String, ∀ s : BJState,
        alookup st.bjStates u = some s → 21 < valueHand s.player →
        (bjStand st (some u)).users = st.users
        ∧ alookup (bjStand st (some u)).bjStates u = none) := by
  refine ⟨?_, ?_, ?_, ?_, ?_⟩
  · intro st
    rfl
  · intro st u h
    rw [bjHit, h]
  · intro st sender
    rcases sender with _ | u
    · rfl
    · rcases h : alookup st.bjStates u with _ | s
      · rw [bjHit, h]
      · rcases hc : s.deck.getLast? with _ | c
        · simp only [bjHit, h, hc]
        · simp only [bjHit, h, hc]
  · intro st u s c h hc
    simp only [bjHit, h, hc]
    simp [alookup_aset]
  · intro st u s h hv
    simp only [bjStand, h, if_pos hv]
    exact ⟨trivial, alookup_adelete_self _ _⟩

/-- C8 witness: a hit on a live two-card hand at a concrete state. -/
theorem c8_witness :
    alookup (bjHit
      { users := [("alice", 90)], online := ["alice"], giveaways := [],
        bjStates := [("alice",
          { deck := [⟨.r3, .spades⟩],
            player := [⟨.rK, .spades⟩, ⟨.r5, .clubs⟩],
            dealer := [⟨.r9, .spades⟩, ⟨.r9, .hearts⟩], bet := 10, done := false })],
        trades := [] } (some "alice")).bjStates "alice"
      = some { deck := [],
               player := [⟨.rK, .spades⟩, ⟨.r5, .clubs⟩, ⟨.r3, .spades⟩],
               dealer := [⟨.r9, .spades⟩, ⟨.r9, .hearts⟩], bet := 10, done := false } := by
  have h := c8_bj_state_machine.2.2.2.1
    { users := [("alice", 90)], online := ["alice"], giveaways := [],
      bjStates := [("alice",
        { deck := [⟨.r3, .spades⟩],
          player := [⟨.rK, .spades⟩, ⟨.r5, .clubs⟩],
          dealer := [⟨.r9, .spades⟩, ⟨.r9, .hearts⟩], bet := 10, done := false })],
      trades := [] } "alice"
    { deck := [⟨.r3, .spades⟩],
      player := [⟨.rK, .spades⟩, ⟨.r5, .clubs⟩],
      dealer := [⟨.r9, .spades⟩, ⟨.r9, .hearts⟩], bet := 10, done := false }
    ⟨.r3, .spades⟩ (by decide) (by decide)
  rw [h]
  decide

/-! ## C3 — giveaway resolution tick -/

/-- C3: on a tick with a non-empty queue only the head `g` is inspected.
It closes exactly when `now - createdAt > 45000` or `entrants.length ≥ 5`;
when the condition fails nothing at all changes.  On close, an empty entrant
set refunds `amount` to the host, otherwise the chosen entrant
(`entrants[pick]`, `pick = Math.floor(random*length) < length`) — a member
of the entrant set — is credited `amount`; only that one balance changes;
the head is shifted off and the giveaways behind it are untouched.
(The credited party must exist in the ledger; in JS a missing user would
throw before any mutation.) -/
theorem c3_tick (st : GState) (now : Int) (pick : Nat) (g : Giveaway)
    (rest : List Giveaway) (hq : st.giveaways = g :: rest) :
    (¬ (45000 < now - g.createdAt ∨ 5 ≤ g.entrants.length) →
      giveawayTick st now pick = st)
    ∧ ((45000 < now - g.createdAt ∨ 5 ≤ g.entrants.length) → g.entrants = [] →
        ∀ hb, lookupBal st.users g.host = some hb →
        (giveawayTick st now pick).giveaways = rest
        ∧ lookupBal (giveawayTick st now pick).users g.host = some (hb + g.amount)
        ∧ (∀ m, m ≠ g.host →
            lookupBal (giveawayTick st now pick).users m = lookupBal st.users m))
    ∧ ((45000 < now - g.createdAt ∨ 5 ≤ g.entrants.length) → g.entrants ≠ [] →
        pick < g.entrants.length →
        g.entrants.getD pick "" ∈ g.entrants
        ∧ ∀ wb, lookupBal st.users (g.entrants.getD pick "") = some wb →
          (giveawayTick st now pick).giveaways = rest
          ∧ lookupBal (giveawayTick st now pick).users (g.entrants.getD pick "")
              = some (wb + g.amount)
          ∧ (∀ m, m ≠ g.entrants.getD pick "" →
              lookupBal (giveawayTick st now pick).users m = lookupBal st.users m)) := by
  refine ⟨?_, ?_, ?_⟩
  · intro hcond
    simp only [giveawayTick, hq, if_neg hcond]
  · intro hcond hempty hb hhb
    have hlen : g.entrants.length = 0 := by rw [hempty]; rfl
    simp only [giveawayTick, hq]
    rw [if_pos hcond, if_pos hlen]
    refine ⟨rfl, ?_, ?_⟩
    · rw [lookupBal_creditBal_self, hhb]
      rfl
    · intro m hm
      exact lookupBal_creditBal_other _ _ _ _ hm
  · intro hcond hne hpick
    have hmem : g.entrants.getD pick "" ∈ g.entrants := getD_mem _ _ _ hpick
    refine ⟨hmem, ?_⟩
    intro wb hwb
    have hlen : ¬ g.entrants.length = 0 := by
      intro h0
      exact hne (List.length_eq_zero.mp h0)
    simp only [giveawayTick, hq]
    rw [if_pos hcond, if_neg hlen]
    refine ⟨rfl, ?_, ?_⟩
    · rw [lookupBal_creditBal_self, hwb]
      rfl
    · intro m hm
      exact lookupBal_creditBal_other _ _ _ _ hm

/-- C3 witness: an expired empty giveaway refunds its host and leaves the
queue tail in place. -/
theorem c3_witness :
    (giveawayTick
      { users := [("alice", 80)], online := ["alice"],
        giveaways :=
          [{ id := 1, host := "alice", amount := 20, entrants := [], createdAt := 0 },
           { id := 2, host := "alice", amount := 5, entrants := [], createdAt := 99000 }],
        bjStates := [], trades := [] } 50000 0).giveaways
      = [{ id := 2, host := "alice", amount := 5, entrants := [], createdAt := 99000 }]
    ∧ lookupBal (giveawayTick
      { users := [("alice", 80)], online := ["alice"],
        giveaways :=
          [{ id := 1, host := "alice", amount := 20, entrants := [], createdAt := 0 },
           { id := 2, host := "alice", amount := 5, entrants := [], createdAt := 99000 }],
        bjStates := [], trades := [] } 50000 0).users "alice" = some 100 := by
  have h := (c3_tick
    { users := [("alice", 80)], online := ["alice"],
      giveaways :=
        [{ id := 1, host := "alice", amount := 20, entrants := [], createdAt := 0 },
         { id := 2, host := "alice", amount := 5, entrants := [], createdAt := 99000 }],
      bjStates := [], trades := [] } 50000 0
    { id := 1, host := "alice", amount := 20, entrants := [], createdAt := 0 }
    [{ id := 2, host := "alice", amount := 5, entrants := [], createdAt := 99000 }]
    rfl).2.1 (by decide) rfl 80 (by decide)
  exact ⟨h.1, h.2.1⟩

/-! ## C4 — `stand` settlement -/

/-- C4: `stand` on a live blackjack state (one exists for the user; its
player value is at most 21, which the spec notes is the only reachable case
— a busting hit marks the state SETTLED before any stand).  The dealer
draws while its value is below 17 (no soft-17 exception; the loop can end
early only by exhausting the deck, impossible with a real deck).  Then the
player is credited `2*bet` when the dealer busts or the player total is
higher, `bet` on equal totals, nothing otherwise; no other balance changes;
and the state is destroyed, so the user has no live state afterwards. -/
theorem c4_stand (st : GState) (u : String) (s : BJState)
    (h : alookup st.bjStates u = some s)
    (hpv : valueHand s.player ≤ 21) :
    (17 ≤ valueHand (dealerLoop s.deck s.dealer).2
      ∨ (dealerLoop s.deck s.dealer).1 = [])
    ∧ alookup (bjStand st (some u)).bjStates u = none
    ∧ (∀ b, lookupBal st.users u = some b →
        lookupBal (bjStand st (some u)).users u =
          some (if 21 < valueHand (dealerLoop s.deck s.dealer).2
                  ∨ valueHand (dealerLoop s.deck s.dealer).2 < valueHand s.player
                then b + s.bet * 2
                else if valueHand s.player = valueHand (dealerLoop s.deck s.dealer).2
                then b + s.bet
                else b))
    ∧ (∀ m, m ≠ u →
        lookupBal (bjStand st (some u)).users m = lookupBal st.users m) := by
  have hpost : 17 ≤ valueHand (dealerLoop s.deck s.dealer).2
      ∨ (dealerLoop s.deck s.dealer).1 = [] :=
    dealerLoopAux_post _ s.deck s.dealer (Nat.lt_succ_self _)
  have hnb : ¬ (valueHand s.player > 21) := not_lt.mpr hpv
  refine ⟨hpost, ?_, ?_, ?_⟩
  · simp only [bjStand, h, if_neg hnb]
    exact alookup_adelete_self _ _
  · intro b hb
    simp only [bjStand, h, if_neg hnb]
    by_cases hwin : valueHand (dealerLoop s.deck s.dealer).2 > 21
        ∨ valueHand s.player > valueHand (dealerLoop s.deck s.dealer).2
    · rw [if_pos hwin, if_pos (by tauto : 21 < valueHand (dealerLoop s.deck s.dealer).2
        ∨ valueHand (dealerLoop s.deck s.dealer).2 < valueHand s.player)]
      rw [lookupBal_creditBal_self, hb]
      rfl
    · rw [if_neg hwin, if_neg (by tauto : ¬ (21 < valueHand (dealerLoop s.deck s.dealer).2
        ∨ valueHand (dealerLoop s.deck s.dealer).2 < valueHand s.player))]
      by_cases hpush : valueHand s.player = valueHand (dealerLoop s.deck s.dealer).2
      · rw [if_pos hpush, if_pos hpush]
        rw [lookupBal_creditBal_self, hb]
        rfl
      · rw [if_neg hpush, if_neg hpush]
        exact hb
  · intro m hm
    simp only [bjStand, h, if_neg hnb]
    split_ifs
    · exact lookupBal_creditBal_other _ _ _ _ hm
    · exact lookupBal_creditBal_other _ _ _ _ hm
    · rfl

/-- C4 witness: a concrete stand where the dealer draws to 22 and the
player is paid twice the bet. -/
theorem c4_witness :
    alookup (bjStand
      { users := [("alice", 90)], online := ["alice"], giveaways := [],
        bjStates := [("alice",
          { deck := [⟨.r7, .spades⟩, ⟨.r8, .hearts⟩],
            player := [⟨.rK, .spades⟩, ⟨.rQ, .hearts⟩],
            dealer := [⟨.r9, .spades⟩, ⟨.r5, .hearts⟩], bet := 10, done := false })],
        trades := [] } (some "alice")).bjStates "alice" = none := by
  exact (c4_stand
    { users := [("alice", 90)], online := ["alice"], giveaways := [],
      bjStates := [("alice",
        { deck := [⟨.r7, .spades⟩, ⟨.r8, .hearts⟩],
          player := [⟨.rK, .spades⟩, ⟨.rQ, .hearts⟩],
          dealer := [⟨.r9, .spades⟩, ⟨.r5, .hearts⟩], bet := 10, done := false })],
      trades := [] } "alice"
    { deck := [⟨.r7, .spades⟩, ⟨.r8, .hearts⟩],
      player := [⟨.rK, .spades⟩, ⟨.rQ, .hearts⟩],
      dealer := [⟨.r9, .spades⟩, ⟨.r5, .hearts⟩], bet := 10, done := false }
    (by decide) (by decide)).2.1

/-! ## C2 — the poker round -/

/-- C2: for `poker_start` from an authenticated initiator with
`balance ≥ bet` (the `online` registry, a JS object, has unique keys): the
eligible participants are exactly the currently online users with balance at
least `bet`; with no eligible participant the round fails (`no players with
enough funds`) with the state — in particular every balance — unchanged;
otherwise the round reports a winner `w`, one of the participants (the front
of the rank-descending stable sort), and afterwards `w`'s balance has gained
`bet * (participants-1)` (debited `bet`, then paid the whole pot
`bet * participants`), every other participant's balance has lost `bet`, and
every other user's balance is unchanged. -/
theorem c2_poker (st : GState) (u : String) (b bet : Int) (d : List Card)
    (hu : lookupBal st.users u = some b) (hb : bet ≤ b) (hnd : st.online.Nodup) :
    (∀ v, v ∈ st.online.filter (fun v => bet ≤ lookupBalD st.users v)
        ↔ (v ∈ st.online ∧ bet ≤ lookupBalD st.users v))
    ∧ (st.online.filter (fun v => bet ≤ lookupBalD st.users v) = [] →
        pokerStart st (some u) bet d = (st, .noPlayers))
    ∧ (st.online.filter (fun v => bet ≤ lookupBalD st.users v) ≠ [] →
        ∃ w, (pokerStart st (some u) bet d).2 = .played w
          ∧ w ∈ st.online.filter (fun v => bet ≤ lookupBalD st.users v)
          ∧ ∀ m, lookupBal (pokerStart st (some u) bet d).1.users m =
              (if m = w then
                (lookupBal st.users m).map (fun x =>
                  x + bet * (((st.online.filter (fun v => bet ≤ lookupBalD st.users v)).length : Int) - 1))
              else if m ∈ st.online.filter (fun v => bet ≤ lookupBalD st.users v) then
                (lookupBal st.users m).map (fun x => x - bet)
              else lookupBal st.users m)) := by
  have hnlt : ¬ b < bet := not_lt.mpr hb
  refine ⟨?_, ?_, ?_⟩
  · intro v
    simp [List.mem_filter]
  · intro hp
    simp only [pokerStart, hu, if_neg hnlt, hp]
  · intro hp
    rcases hpart : st.online.filter (fun v => bet ≤ lookupBalD st.users v) with _ | ⟨w0, ps⟩
    · exact absurd hpart hp
    -- abbreviations mirroring the handler
    set participants := w0 :: ps with hP
    set results := ((dealAll d participants).1.map (fun p => (p.1, rankHand p.2))) with hR
    set sorted := sortBy (fun x y => compareRank y.2 x.2 < 0) results with hS
    set w := (sorted.headD (w0, rankHand [])).1 with hW
    have hfst : results.map Prod.fst = participants := by
      rw [hR, List.map_map]
      exact dealAll_users d participants
    have hrne : results ≠ [] := by
      intro he
      have := congrArg List.length hfst
      rw [he, hP] at this
      simp at this
    have hwmem : w ∈ participants := by
      have hmem : (sorted.headD (w0, rankHand [])) ∈ results := by
        rw [hS]
        exact sortBy_headD_mem _ _ _ hrne
      rw [← hfst]
      exact List.mem_map_of_mem Prod.fst hmem
    have hpnd : participants.Nodup := by
      rw [← hpart]
      exact hnd.filter _
    have hpge : ∀ v ∈ participants, ∀ x, lookupBal st.users v = some x → bet ≤ x := by
      intro v hv x hx
      have hv' : v ∈ st.online.filter (fun v => bet ≤ lookupBalD st.users v) := by
        rw [hpart]; exact hv
      have := (List.mem_filter.mp hv').2
      have hd : lookupBalD st.users v = x := by rw [lookupBalD, hx]; rfl
      simpa [hd] using this
    have heval : pokerStart st (some u) bet d =
        ({ st with
            users := creditBal (participants.foldl (fun us v => debitBal us v bet) st.users) w (bet * (participants.length : Int)) },
          .played w) := by
      rw [pokerStart]
      simp only [hu, if_neg hnlt, hpart]
    refine ⟨w, ?_, ?_, ?_⟩
    · rw [heval]
    · exact hwmem
    · intro m
      rw [heval]
      show lookupBal (creditBal
          (participants.foldl (fun us v => debitBal us v bet) st.users) w
          (bet * (participants.length : Int))) m = _
      by_cases hmw : m = w
      · subst hmw
        rw [lookupBal_creditBal_self, foldl_debit_lookup_mem _ _ _ _ hpnd hwmem,
          if_pos rfl]
        cases ho : lookupBal st.users w with
        | none => rfl
        | some x =>
          show some (x - bet + bet * (participants.length : Int))
            = some (x + bet * ((participants.length : Int) - 1))
          have harith : x - bet + bet * (participants.length : Int)
              = x + bet * ((participants.length : Int) - 1) := by ring
          rw [harith]
      · rw [lookupBal_creditBal_other _ _ _ _ hmw, if_neg hmw]
        by_cases hmp : m ∈ participants
        · rw [foldl_debit_lookup_mem _ _ _ _ hpnd hmp, if_pos hmp]
        · rw [foldl_debit_lookup_notmem _ _ _ _ hmp, if_neg hmp]

/-- C2 witness: the spec's three-player vector — three online users with 50
each, bet 10; afterwards exactly one participant is up 20 and the others
are down 10. -/
theorem c2_witness :
    ∃ w, (pokerStart ({ users := [("alice", 50), ("bob", 50), ("carol", 50)], online := ["alice", "bob", "carol"], giveaways := [], bjStates := [], trades := [] } : GState) (some "alice") 10 [⟨.r2, .hearts⟩, ⟨.r4, .diamonds⟩, ⟨.r6, .spades⟩, ⟨.r8, .clubs⟩, ⟨.rJ, .hearts⟩, ⟨.r3, .spades⟩, ⟨.r5, .clubs⟩, ⟨.r7, .diamonds⟩, ⟨.r9, .hearts⟩, ⟨.rK, .spades⟩, ⟨.r2, .spades⟩, ⟨.r4, .clubs⟩, ⟨.r5, .diamonds⟩, ⟨.r10, .hearts⟩, ⟨.r10, .spades⟩]).2 = .played w
      ∧ w ∈ ({ users := [("alice", 50), ("bob", 50), ("carol", 50)], online := ["alice", "bob", "carol"], giveaways := [], bjStates := [], trades := [] } : GState).online.filter (fun v => (10 : Int) ≤ lookupBalD ({ users := [("alice", 50), ("bob", 50), ("carol", 50)], online := ["alice", "bob", "carol"], giveaways := [], bjStates := [], trades := [] } : GState).users v)
      ∧ ∀ m, lookupBal (pokerStart ({ users := [("alice", 50), ("bob", 50), ("carol", 50)], online := ["alice", "bob", "carol"], giveaways := [], bjStates := [], trades := [] } : GState) (some "alice") 10 [⟨.r2, .hearts⟩, ⟨.r4, .diamonds⟩, ⟨.r6, .spades⟩, ⟨.r8, .clubs⟩, ⟨.rJ, .hearts⟩, ⟨.r3, .spades⟩, ⟨.r5, .clubs⟩, ⟨.r7, .diamonds⟩, ⟨.r9, .hearts⟩, ⟨.rK, .spades⟩, ⟨.r2, .spades⟩, ⟨.r4, .clubs⟩, ⟨.r5, .diamonds⟩, ⟨.r10, .hearts⟩, ⟨.r10, .spades⟩]).1.users m =
          (if m = w then
            (lookupBal ({ users := [("alice", 50), ("bob", 50), ("carol", 50)], online := ["alice", "bob", "carol"], giveaways := [], bjStates := [], trades := [] } : GState).users m).map (fun x => x + 10 * (((({ users := [("alice", 50), ("bob", 50), ("carol", 50)], online := ["alice", "bob", "carol"], giveaways := [], bjStates := [], trades := [] } : GState).online.filter (fun v => (10 : Int) ≤ lookupBalD ({ users := [("alice", 50), ("bob", 50), ("carol", 50)], online := ["alice", "bob", "carol"], giveaways := [], bjStates := [], trades := [] } : GState).users v)).length : Int) - 1))
          else if m ∈ ({ users := [("alice", 50), ("bob", 50), ("carol", 50)], online := ["alice", "bob", "carol"], giveaways := [], bjStates := [], trades := [] } : GState).online.filter (fun v => (10 : Int) ≤ lookupBalD ({ users := [("alice", 50), ("bob", 50), ("carol", 50)], online := ["alice", "bob", "carol"], giveaways := [], bjStates := [], trades := [] } : GState).users v) then
            (lookupBal ({ users := [("alice", 50), ("bob", 50), ("carol", 50)], online := ["alice", "bob", "carol"], giveaways := [], bjStates := [], trades := [] } : GState).users m).map (fun x => x - 10)
          else lookupBal ({ users := [("alice", 50), ("bob", 50), ("carol", 50)], online := ["alice", "bob", "carol"], giveaways := [], bjStates := [], trades := [] } : GState).users m) := by
  exact (c2_poker _ "alice" 50 10 [⟨.r2, .hearts⟩, ⟨.r4, .diamonds⟩, ⟨.r6, .spades⟩, ⟨.r8, .clubs⟩, ⟨.rJ, .hearts⟩, ⟨.r3, .spades⟩, ⟨.r5, .clubs⟩, ⟨.r7, .diamonds⟩, ⟨.r9, .hearts⟩, ⟨.rK, .spades⟩, ⟨.r2, .spades⟩, ⟨.r4, .clubs⟩, ⟨.r5, .diamonds⟩, ⟨.r10, .hearts⟩, ⟨.r10, .spades⟩] (by decide) (by decide) (by decide)).2.2 (by decide)

/-! ## C1 — balance non-negativity (per-handler preservation) -/

theorem sendCoins_good (st : GState) (s : Option String) (sto : String) (a : Int)
    (hg : goodState st) : goodState (sendCoins st s sto a).1 := by
  obtain ⟨hnn, hnd, hbets, hamts⟩ := hg
  rcases s with _ | sfrom
  · exact ⟨hnn, hnd, hbets, hamts⟩
  · by_cases ha : a ≤ 0
    · simp only [sendCoins, if_pos ha]
      exact ⟨hnn, hnd, hbets, hamts⟩
    · rcases hto : lookupBal st.users sto with _ | bto
      · simp only [sendCoins, if_neg ha, hto]
        exact ⟨hnn, hnd, hbets, hamts⟩
      · rcases hfrom : lookupBal st.users sfrom with _ | bf
        · simp only [sendCoins, if_neg ha, hto, hfrom]
          exact ⟨hnn, hnd, hbets, hamts⟩
        · by_cases hlt : bf < a
          · simp only [sendCoins, if_neg ha, hto, hfrom, if_pos hlt]
            exact ⟨hnn, hnd, hbets, hamts⟩
          · simp only [sendCoins, if_neg ha, hto, hfrom, if_neg hlt]
            refine ⟨?_, hnd, hbets, hamts⟩
            apply creditBal_nonneg
            · apply debitBal_nonneg _ _ _ hnn
              intro b' hb'
              rw [hfrom] at hb'
              cases hb'
              omega
            · omega

theorem giveawayCmd_good (st : GState) (s : Option String) (a now : Int)
    (hg : goodState st) : goodState (giveawayCmd st s a now).1 := by
  obtain ⟨hnn, hnd, hbets, hamts⟩ := hg
  by_cases ha : a ≤ 0
  · simp only [giveawayCmd, if_pos ha]
    exact ⟨hnn, hnd, hbets, hamts⟩
  · rcases hfrom : lookupBal st.users (s.getD "guest") with _ | bf
    · simp only [giveawayCmd, if_neg ha, hfrom]
      exact ⟨hnn, hnd, hbets, hamts⟩
    · by_cases hlt : bf < a
      · simp only [giveawayCmd, if_neg ha, hfrom, if_pos hlt]
        exact ⟨hnn, hnd, hbets, hamts⟩
      · simp only [giveawayCmd, if_neg ha, hfrom, if_neg hlt]
        refine ⟨?_, hnd, hbets, ?_⟩
        · apply debitBal_nonneg _ _ _ hnn
          intro b' hb'
          rw [hfrom] at hb'
          cases hb'
          omega
        · intro g hgm
          rcases List.mem_append.mp hgm with h | h
          · exact hamts g h
          · rcases List.mem_singleton.mp h with rfl
            show (0 : Int) ≤ a
            omega

theorem enterCmd_good (st : GState) (s : Option String)
    (hg : goodState st) : goodState (enterCmd st s).1 := by
  obtain ⟨hnn, hnd, hbets, hamts⟩ := hg
  rcases hgl : st.giveaways.getLast? with _ | g
  · simp only [enterCmd, hgl]
    exact ⟨hnn, hnd, hbets, hamts⟩
  · by_cases hm : (s.getD "guest") ∈ g.entrants
    · simp only [enterCmd, hgl, if_pos hm]
      exact ⟨hnn, hnd, hbets, hamts⟩
    · simp only [enterCmd, hgl, if_neg hm]
      refine ⟨hnn, hnd, hbets, ?_⟩
      intro g' hg'
      rcases List.mem_append.mp hg' with h | h
      · exact hamts g' (List.dropLast_subset _ h)
      · rcases List.mem_singleton.mp h with rfl
        exact hamts g (getLast?_some_mem _ _ hgl)

theorem bjStart_good (st : GState) (s : Option String) (bet : Int) (d : List Card)
    (hg : goodState st) (hbet : 0 ≤ bet) : goodState (bjStart st s bet d).1 := by
  obtain ⟨hnn, hnd, hbets, hamts⟩ := hg
  rcases s with _ | u
  · exact ⟨hnn, hnd, hbets, hamts⟩
  · rcases hu : lookupBal st.users u with _ | b
    · simp only [bjStart, hu]
      exact ⟨hnn, hnd, hbets, hamts⟩
    · by_cases hlt : b < bet
      · simp only [bjStart, hu, if_pos hlt]
        exact ⟨hnn, hnd, hbets, hamts⟩
      · simp only [bjStart, hu, if_neg hlt]
        refine ⟨?_, hnd, ?_, hamts⟩
        · apply debitBal_nonneg _ _ _ hnn
          intro b' hb'
          rw [hu] at hb'
          cases hb'
          omega
        · intro p hp
          rcases aset_mem _ _ _ p hp with h | h
          · exact hbets p h
          · rw [h]
            exact hbet

theorem bjHit_good (st : GState) (s : Option String)
    (hg : goodState st) : goodState (bjHit st s) := by
  obtain ⟨hnn, hnd, hbets, hamts⟩ := hg
  rcases s with _ | u
  · exact ⟨hnn, hnd, hbets, hamts⟩
  · rcases h : alookup st.bjStates u with _ | sstate
    · rw [bjHit, h]
      exact ⟨hnn, hnd, hbets, hamts⟩
    · rcases hc : sstate.deck.getLast? with _ | c
      · simp only [bjHit, h, hc]
        exact ⟨hnn, hnd, hbets, hamts⟩
      · simp only [bjHit, h, hc]
        refine ⟨hnn, hnd, ?_, hamts⟩
        intro p hp
        rcases aset_mem _ _ _ p hp with hmem | hmem
        · exact hbets p hmem
        · rw [hmem]
          exact hbets (u, sstate) (alookup_some_mem _ _ _ h)

theorem bjStand_good (st : GState) (s : Option String)
    (hg : goodState st) : goodState (bjStand st s) := by
  obtain ⟨hnn, hnd, hbets, hamts⟩ := hg
  rcases s with _ | u
  · exact ⟨hnn, hnd, hbets, hamts⟩
  · rcases h : alookup st.bjStates u with _ | sstate
    · rw [bjStand, h]
      exact ⟨hnn, hnd, hbets, hamts⟩
    · have hsbet : 0 ≤ sstate.bet := hbets (u, sstate) (alookup_some_mem _ _ _ h)
      simp only [bjStand, h]
      refine ⟨?_, hnd, ?_, hamts⟩
      · split_ifs
        · exact hnn
        · exact creditBal_nonneg _ _ _ hnn (by omega)
        · exact creditBal_nonneg _ _ _ hnn (by omega)
        · exact hnn
      · intro p hp
        exact hbets p (adelete_mem _ _ p hp)

theorem giveawayTick_good (st : GState) (now : Int) (pick : Nat)
    (hg : goodState st) : goodState (giveawayTick st now pick) := by
  obtain ⟨hnn, hnd, hbets, hamts⟩ := hg
  rcases hq : st.giveaways with _ | ⟨g, rest⟩
  · simp only [giveawayTick, hq]
    exact ⟨hnn, hnd, hbets, hamts⟩
  · have hga : (0 : Int) ≤ g.amount := hamts g (by rw [hq]; exact List.mem_cons_self _ _)
    by_cases hcond : 45000 < now - g.createdAt ∨ 5 ≤ g.entrants.length
    · simp only [giveawayTick, hq]
      rw [if_pos hcond]
      refine ⟨?_, hnd, hbets, ?_⟩
      · split_ifs
        · exact creditBal_nonneg _ _ _ hnn hga
        · exact creditBal_nonneg _ _ _ hnn hga
      · intro g' hg'
        exact hamts g' (by rw [hq]; exact List.mem_cons_of_mem _ hg')
    · simp only [giveawayTick, hq]
      rw [if_neg hcond]
      exact ⟨hnn, hnd, hbets, hamts⟩

theorem pokerStart_good (st : GState) (s : Option String) (bet : Int) (d : List Card)
    (hg : goodState st) (hbet : 0 ≤ bet) : goodState (pokerStart st s bet d).1 := by
  obtain ⟨hnn, hnd, hbets, hamts⟩ := hg
  rcases s with _ | u
  · exact ⟨hnn, hnd, hbets, hamts⟩
  · rcases hu : lookupBal st.users u with _ | b
    · simp only [pokerStart, hu]
      exact ⟨hnn, hnd, hbets, hamts⟩
    · by_cases hlt : b < bet
      · simp only [pokerStart, hu, if_pos hlt]
        exact ⟨hnn, hnd, hbets, hamts⟩
      · rcases hpart : st.online.filter (fun v => bet ≤ lookupBalD st.users v)
            with _ | ⟨w0, ps⟩
        · simp only [pokerStart, hu, if_neg hlt, hpart]
          exact ⟨hnn, hnd, hbets, hamts⟩
        · simp only [pokerStart, hu, if_neg hlt, hpart]
          refine ⟨?_, hnd, hbets, hamts⟩
          apply creditBal_nonneg
          · apply foldl_debit_nonneg _ _ _ hnn
            · rw [← hpart]
              exact hnd.filter _
            · intro v hv x hx
              have hv' : v ∈ st.online.filter (fun v => bet ≤ lookupBalD st.users v) := by
                rw [hpart]
                exact hv
              have hle := (List.mem_filter.mp hv').2
              have hd : lookupBalD st.users v = x := by rw [lookupBalD, hx]; rfl
              rw [hd] at hle
              simpa using hle
          · exact mul_nonneg hbet (by positivity)

/-- C1 counterexample: the claimed invariant is false.  From the reachable
state where `alice` and `bob` are online with balance 0 (`goodState` holds),
a `pokerStart` with `bet = -50` passes every guard (`0 < -50` is false and
`-50 ≤ 0` makes everyone eligible), "debits" each participant −50, and then
credits the winner — here `alice`, dealt a pair of 10s off the deck's end
against `bob`'s high card — `(-50) * 2 = -100`: she ends at −50.  No
failure, a partial-then-negative mutation instead. -/
theorem c1_counterexample :
    goodState
      { users := [("alice", 0), ("bob", 0)], online := ["alice", "bob"],
        giveaways := [], bjStates := [], trades := [] }
    ∧ lookupBal (applyOp
        { users := [("alice", 0), ("bob", 0)], online := ["alice", "bob"],
          giveaways := [], bjStates := [], trades := [] }
        (.pokerStartOp (some "alice") (-50)
          [⟨.r3, .spades⟩, ⟨.r5, .clubs⟩, ⟨.r7, .diamonds⟩, ⟨.r9, .hearts⟩, ⟨.rK, .spades⟩,
           ⟨.r2, .spades⟩, ⟨.r4, .clubs⟩, ⟨.r5, .diamonds⟩, ⟨.r10, .hearts⟩, ⟨.r10, .spades⟩])).users "alice" = some (-50)
    ∧ ¬ nonNegBalances (applyOp
        { users := [("alice", 0), ("bob", 0)], online := ["alice", "bob"],
          giveaways := [], bjStates := [], trades := [] }
        (.pokerStartOp (some "alice") (-50)
          [⟨.r3, .spades⟩, ⟨.r5, .clubs⟩, ⟨.r7, .diamonds⟩, ⟨.r9, .hearts⟩, ⟨.rK, .spades⟩,
           ⟨.r2, .spades⟩, ⟨.r4, .clubs⟩, ⟨.r5, .diamonds⟩, ⟨.r10, .hearts⟩, ⟨.r10, .spades⟩])) := by
  refine ⟨?_, by decide, ?_⟩
  · unfold goodState nonNegBalances
    refine ⟨by decide, by decide, by decide, by decide⟩
  · intro h
    exact absurd (h ("alice", -50) (by decide)) (by decide)

/-- C1 (amended): every operation preserves non-negative balances *given*
that the submitted `bet` of `bj_start` / `poker_start` is non-negative —
the source never validates those bets (no `InvalidAmount` check), and a
negative poker bet drives the winner's balance negative.  `goodState`
carries the reachable-state facts the invariant needs: balances
non-negative, the online registry key-unique, live blackjack stakes and
queued giveaway amounts non-negative; all are preserved as well. -/
theorem c1_balances_nonneg (st : GState) (op : Op)
    (hg : goodState st) (hop : opBetOK op) : goodState (applyOp st op) := by
  cases op with
  | sendCoinsOp s sto a => exact sendCoins_good st s sto a hg
  | giveawayOp s a now => exact giveawayCmd_good st s a now hg
  | enterOp s => exact enterCmd_good st s hg
  | bjStartOp s bet d => exact bjStart_good st s bet d hg hop
  | bjActionOp s act =>
    show goodState (bjAction st s act)
    rw [bjAction]
    split_ifs
    · exact bjHit_good st s hg
    · exact bjStand_good st s hg
    · exact hg
  | pokerStartOp s bet d => exact pokerStart_good st s bet d hg hop
  | tickOp now pick => exact giveawayTick_good st now pick hg

/-- C1 witness: a concrete `send_coins` keeps the state good. -/
theorem c1_witness :
    goodState (applyOp
      { users := [("alice", 100), ("bob", 5)], online := ["alice", "bob"],
        giveaways := [], bjStates := [], trades := [] }
      (.sendCoinsOp (some "alice") "bob" 30)) := by
  exact c1_balances_nonneg _ _
    (by unfold goodState nonNegBalances; exact ⟨by decide, by decide, by decide, by decide⟩)
    trivial

/-! ## C5 — the comparator's real tiebreak sequences -/

theorem mem_pairValues (h : List Card) (r : Rank) :
    r ∈ pairValues h ↔ countOf h r = 2 := by
  rw [pairValues, sortBy_mem, List.mem_filter]
  constructor
  · rintro ⟨_, hc⟩
    simpa using hc
  · intro hc
    refine ⟨(mem_keysInJSOrder h r).mpr ?_, by simpa using hc⟩
    rw [hc]
    decide

theorem pairValues_sorted (h : List Card) :
    List.Chain' (fun a b : Rank => rankOrder b ≤ rankOrder a) (pairValues h) := by
  have hasym : ∀ a b : Rank, (decide (rankOrder b < rankOrder a)) = true →
      (decide (rankOrder a < rankOrder b)) = false := by
    intro a b hab
    simp only [decide_eq_true_eq] at hab
    simpa using not_lt.mpr (le_of_lt hab)
  have hchain := sortBy_chain (fun a b : Rank => decide (rankOrder b < rankOrder a)) hasym
    ((keysInJSOrder h).filter (fun r => countOf h r = 2))
  refine List.Chain'.imp ?_ hchain
  intro a b hab
  simp only [decide_eq_false_iff_not] at hab
  exact not_lt.mp hab

/-- Every 5-card hand's `rankHand` score has the amended shape. -/
theorem scoreShape_of_hand (h : List Card) (_hlen : h.length = 5) : ScoreShape h := by
  unfold ScoreShape rankHand
  dsimp only
  by_cases h1 : ((valsDesc h).getD 0 0 - (valsDesc h).getD 4 0 = 4
      ∧ (dedupFirst (valsDesc h)).length = 5)
      ∧ (dedupFirst (List.map (fun c => c.s) h)).length = 1
  · rw [if_pos h1]
    exact Or.inl (by rw [getD_zero_eq_headD])
  rw [if_neg h1]
  by_cases h2 : (freqDesc h).getD 0 0 = 4
  · rw [if_pos h2]
    obtain ⟨r, hcr, hks⟩ := keyScore_eq h 4 (by decide) (by exact_mod_cast h2)
    refine Or.inr (Or.inl ⟨r, hcr, ?_⟩)
    show [JSVal.num 8, keyScore h 4] = [JSVal.num 8, JSVal.str (rankName r)]
    rw [hks]
  rw [if_neg h2]
  by_cases h3 : (freqDesc h).getD 0 0 = 3 ∧ (freqDesc h).getD 1 0 = 2
  · rw [if_pos h3]
    obtain ⟨r, hcr, hks⟩ := keyScore_eq h 3 (by decide) (by exact_mod_cast h3.1)
    refine Or.inr (Or.inr (Or.inl ⟨r, hcr, ?_⟩))
    show [JSVal.num 7, keyScore h 3] = [JSVal.num 7, JSVal.str (rankName r)]
    rw [hks]
  rw [if_neg h3]
  by_cases h4 : (dedupFirst (List.map (fun c => c.s) h)).length = 1
  · rw [if_pos h4]
    exact Or.inr (Or.inr (Or.inr (Or.inl rfl)))
  rw [if_neg h4]
  by_cases h5 : (valsDesc h).getD 0 0 - (valsDesc h).getD 4 0 = 4
      ∧ (dedupFirst (valsDesc h)).length = 5
  · rw [if_pos h5]
    exact Or.inr (Or.inr (Or.inr (Or.inr (Or.inl (by rw [getD_zero_eq_headD])))))
  rw [if_neg h5]
  by_cases h6 : (freqDesc h).getD 0 0 = 3
  · rw [if_pos h6]
    obtain ⟨r, hcr, hks⟩ := keyScore_eq h 3 (by decide) (by exact_mod_cast h6)
    refine Or.inr (Or.inr (Or.inr (Or.inr (Or.inr (Or.inl ⟨r, hcr, ?_⟩)))))
    show [JSVal.num 4, keyScore h 3] = [JSVal.num 4, JSVal.str (rankName r)]
    rw [hks]
  rw [if_neg h6]
  by_cases h7 : (freqDesc h).getD 0 0 = 2 ∧ (freqDesc h).getD 1 0 = 2
  · rw [if_pos h7]
    refine Or.inr (Or.inr (Or.inr (Or.inr (Or.inr (Or.inr (Or.inl
      ⟨pairValues h, ?_, pairValues_sorted h, rfl⟩))))))
    intro r
    exact mem_pairValues h r
  rw [if_neg h7]
  by_cases h8 : (freqDesc h).getD 0 0 = 2
  · rw [if_pos h8]
    obtain ⟨r, hcr, hks⟩ := keyScore_eq h 2 (by decide) (by exact_mod_cast h8)
    refine Or.inr (Or.inr (Or.inr (Or.inr (Or.inr (Or.inr (Or.inr (Or.inl
      ⟨r, hcr, ?_⟩)))))))
    show [JSVal.num 2, keyScore h 2] = [JSVal.num 2, JSVal.str (rankName r)]
    rw [hks]
  rw [if_neg h8]
  exact Or.inr (Or.inr (Or.inr (Or.inr (Or.inr (Or.inr (Or.inr (Or.inr rfl)))))))

theorem cmpSeq_num_head_lt (c1 c2 : Int) (t1 t2 : List JSVal) (h : c1 < c2) :
    cmpSeq (.num c1 :: t1) (.num c2 :: t2) = -1 := by
  rw [cmpSeq]
  have hm : max (JSVal.num c1 :: t1).length (JSVal.num c2 :: t2).length
      = max t1.length t2.length + 1 := by
    simp [Nat.succ_max_succ]
  rw [hm, cmpFrom, scoreGet_num_cons, scoreGet_num_cons]
  have hg : jsGtVal (.num c1) (.num c2) = false := by
    simp only [jsGtVal, toNumber]
    simpa using not_lt.mpr (le_of_lt h)
  have hl : jsLtVal (.num c1) (.num c2) = true := by
    simp only [jsLtVal, toNumber]
    exact decide_eq_true h
  rw [hg, hl]
  rfl

/-- C5 counterexample: the claimed (spec §4.2) comparator ranks a pair of
10s above a pair of 9s (numeric tiebreak 10 > 9); the source's
`compareRank` compares the pair's *name strings* with JS string order, and
`"10" < "9"` lexicographically, so the pair of 9s wins: the two comparators
disagree on this input. -/
theorem c5_counterexample :
    specCompare
      [⟨.r10, .spades⟩, ⟨.r10, .hearts⟩, ⟨.r5, .diamonds⟩, ⟨.r4, .clubs⟩, ⟨.r2, .spades⟩]
      [⟨.r9, .spades⟩, ⟨.r9, .hearts⟩, ⟨.r5, .diamonds⟩, ⟨.r4, .clubs⟩, ⟨.r2, .spades⟩] = 1
    ∧ compareRank
      (rankHand [⟨.r10, .spades⟩, ⟨.r10, .hearts⟩, ⟨.r5, .diamonds⟩, ⟨.r4, .clubs⟩, ⟨.r2, .spades⟩])
      (rankHand [⟨.r9, .spades⟩, ⟨.r9, .hearts⟩, ⟨.r5, .diamonds⟩, ⟨.r4, .clubs⟩, ⟨.r2, .spades⟩])
      = -1 := by
  exact ⟨by decide, by decide⟩

/-- C5 (amended): `compareRank` compares score sequences with JS semantics,
lexicographically with the category number first (a strictly larger
category always wins); *equal* sequences are an exact tie.  But the tiebreak
sequences are not the spec's: straights and straight flushes carry the top
value only and flushes / high cards all five values descending (as
claimed), while the repeated-rank categories carry the repeated rank's
*name string* — compared in JS string order, where e.g. `"10" < "9"` — with
*no* kickers, and Two Pair carries the two pair names (descending by
numeric weight, compared as strings) with no kicker. -/
theorem c5_comparator :
    (∀ h : List Card, h.length = 5 → ScoreShape h)
    ∧ (∀ h : List Card,
        (h.map (fun c => rankOrder c.r)).Perm (valsDesc h) ∧ descSorted (valsDesc h))
    ∧ (∀ a b : HandRank, compareRank a b = cmpSeq a.score b.score)
    ∧ (∀ c1 c2 : Int, ∀ t1 t2 : List JSVal, c2 < c1 →
        cmpSeq (.num c1 :: t1) (.num c2 :: t2) = 1
        ∧ cmpSeq (.num c2 :: t2) (.num c1 :: t1) = -1)
    ∧ (∀ x : JSVal, ∀ t1 t2 : List JSVal, cmpSeq (x :: t1) (x :: t2) = cmpSeq t1 t2)
    ∧ (∀ s : List JSVal, cmpSeq s s = 0)
    ∧ (∀ s1 s2 : String, s1 ≠ "" → s2 ≠ "" →
        cmpSeq [.str s1] [.str s2]
          = if jsStrLt s2 s1 then 1 else if jsStrLt s1 s2 then -1 else 0) := by
  refine ⟨scoreShape_of_hand, ?_, ?_, ?_, ?_, ?_, ?_⟩
  · intro h
    constructor
    · exact (sortBy_perm _ _).symm
    · have hasym : ∀ a b : Int, (decide (b < a)) = true → (decide (a < b)) = false := by
        intro a b hab
        simp only [decide_eq_true_eq] at hab
        simpa using not_lt.mpr (le_of_lt hab)
      have hchain := sortBy_chain (fun x y : Int => decide (y < x)) hasym
        (h.map (fun c => rankOrder c.r))
      refine List.Chain'.imp ?_ hchain
      intro a b hab
      simp only [decide_eq_false_iff_not] at hab
      exact not_lt.mp hab
  · intro a b
    rfl
  · intro c1 c2 t1 t2 hlt
    exact ⟨cmpSeq_num_head_gt c1 c2 t1 t2 hlt, cmpSeq_num_head_lt c2 c1 t2 t1 hlt⟩
  · exact fun x t1 t2 => cmpSeq_cons_same x t1 t2
  · exact cmpSeq_refl
  · exact cmpSeq_str_singleton

/-- C5 witness: the amended facts at the counterexample's pair hands. -/
theorem c5_witness :
    ScoreShape
      [⟨.r10, .spades⟩, ⟨.r10, .hearts⟩, ⟨.r5, .diamonds⟩, ⟨.r4, .clubs⟩, ⟨.r2, .spades⟩]
    ∧ cmpSeq [.str "10"] [.str "9"]
        = if jsStrLt "9" "10" then 1 else if jsStrLt "10" "9" then -1 else 0 := by
  constructor
  · exact c5_comparator.1 _ rfl
  · exact c5_comparator.2.2.2.2.2.2 "10" "9" (by decide) (by decide)
